import Mathlib

/-!
# Runner roster character device (`runner_mod.c`)

A shallow embedding of `runners_write`, the write handler of the `/dev/runners`
character device, together with the parts of the kernel library it calls
(`isspace`, `skip_spaces`, `vsscanf` for the conversions `%s` and `%d`,
`simple_strntoll`, and the `%d` / `%02d` output of `printk`), and of the module
initialiser `runners_init`.

Conventions of the embedding.

* A byte is a natural number; a C string is the list of its bytes before the
  terminating NUL.
* `int` values are integers in the range `-2^31 .. 2^31 - 1`; arithmetic on them
  wraps (`to_int`), as the kernel is built with `-fno-strict-overflow`.
* The roster `list_of_runners` is a list of `runner` records in list order;
  `kmalloc` is taken to succeed.
* A call returns `none` when it writes past the end of one of its fixed-size
  stack arrays (`cmd[16]`, `name[100]`, `school[100]`): the behaviour of the C
  program is undefined from that point on.
* The observable effects of a call are recorded as a trace of events: taking and
  releasing the mutex and each `printk` record.
* Pointers are 64-bit values; `long` has 64 bits.
-/

namespace Runners

/-! ## Bytes and character classes -/

/-- The bytes of an ASCII text. -/
def bytes (s : String) : List Nat := s.toList.map Char.toNat

/-- Kernel `isspace`: the `_S` entries of `_ctype[]` are 9..13, 32 and 160. -/
def isspace (c : Nat) : Bool := (9 ≤ c && c ≤ 13) || c == 32 || c == 160

/-- Kernel `isdigit`: `'0' <= c && c <= '9'`. -/
def isdigit (c : Nat) : Bool := 48 ≤ c && c ≤ 57

/-- Kernel `skip_spaces`: `while (isspace(*str)) ++str;`. -/
def skip_spaces (str : List Nat) : List Nat := str.dropWhile isspace

/-- The C string held by a byte array: the bytes before the first NUL. -/
def cstr (b : List Nat) : List Nat := b.takeWhile (fun c => c != 0)

/-! ## Integer conversion (`lib/kstrtox.c`, `lib/vsprintf.c`) -/

/-- Kernel `_parse_integer_limit` for base 10: accumulates decimal digits into an
`unsigned long long` (wrapping modulo `2^64`) and stops at the first byte that is
not a digit.  Returns the accumulated value and the unread rest.  The limit
`max_chars` is `INT_MAX` at every call site of this driver and is never reached
in a 100-byte buffer. -/
def parse_integer_limit : List Nat → Nat → Nat × List Nat
  | [], res => (res, [])
  | c :: s, res =>
    if isdigit c then parse_integer_limit s ((res * 10 + (c - 48)) % 2 ^ 64)
    else (res, c :: s)

/-- Kernel `simple_strntoull` for base 10 (no radix prefix to skip). -/
def simple_strntoull (startp : List Nat) : Nat × List Nat :=
  parse_integer_limit startp 0

/-- Kernel `simple_strntoll`: a leading `-` negates the unsigned result, in
64-bit two-complement arithmetic. -/
def simple_strntoll (cp : List Nat) : Nat × List Nat :=
  if cp.head? = some 45 then
    let r := simple_strntoull cp.tail
    ((2 ^ 64 - r.1) % 2 ^ 64, r.2)
  else simple_strntoull cp

/-- Conversion of a 64-bit pattern (or of an exact integer result) to `int`:
the low 32 bits read as a two-complement number. -/
def to_int (v : Int) : Int := (v + 2 ^ 31) % 2 ^ 32 - 2 ^ 31

/-! ## `vsscanf` -/

/-- One converted argument of `sscanf`: an `int` stored by `%d` or a string
stored by `%s`. -/
inductive Arg where
  | int (v : Int)
  | str (s : List Nat)
deriving DecidableEq, Repr

/-- Kernel `vsscanf`, restricted to the directives this driver uses: white space
in the format, literal bytes, `%s` and `%d` without width or qualifier.  `str` is
the input C string and the second argument the format; the result lists the
arguments stored so far, in order, so that the return value of `sscanf` is its
length.  Any other conversion stops the scan. -/
def vsscanf : List Nat → List Nat → List Arg
  | _, [] => []
  -- case 's'
  | str, 37 :: 115 :: fmt =>
    if str = [] then []                       -- if (!*str) break;
    else
      let str1 := skip_spaces str
      Arg.str (str1.takeWhile (fun c => !isspace c))
        :: vsscanf (str1.dropWhile (fun c => !isspace c)) fmt
  -- case 'd'
  | str, 37 :: 100 :: fmt =>
    if str = [] then []                       -- if (!*str) break;
    else
      let str1 := skip_spaces str
      let digit : Option Nat :=
        if str1.head? = some 45 then str1.tail.head? else str1.head?
      match digit with
      | none => []                            -- !digit
      | some d =>
        if isdigit d then
          let r := simple_strntoll str1
          Arg.int (to_int r.1) :: vsscanf r.2 fmt
        else []
  | _, 37 :: _ => []
  | str, c :: fmt =>
    if isspace c then vsscanf (skip_spaces str) fmt
    else
      match str with
      | [] => []                              -- *fmt++ != *str++ at the NUL
      | s :: str1 => if c = s then vsscanf str1 fmt else []

/-! ## `printk` number output (`lib/vsprintf.c`) -/

/-- Kernel `put_dec`: the decimal digits of `n`, least significant first, as it
fills `tmp[]`.  The first argument bounds the number of digits. -/
def put_dec : Nat → Nat → List Nat
  | 0, _ => []
  | fuel + 1, n =>
    (48 + n % 10) :: (if n / 10 = 0 then [] else put_dec fuel (n / 10))

/-- Kernel `number` for base 10 with the `SIGN` and `ZEROPAD` flags: `%d` is
`number num 0` and `%02d` is `number num 2`.  A minus sign takes one column of
the field width; the remaining columns are filled with zeros. -/
def number (num : Int) (field_width : Nat) : List Nat :=
  let sign : List Nat := if num < 0 then [45] else []
  let digits := (put_dec 20 num.natAbs).reverse
  sign ++ List.replicate (field_width - sign.length - digits.length) 48 ++ digits

/-! ## The roster -/

/-- Size of `name` in `struct runner` and of the local `name`. -/
def LEN_NAME : Nat := 100

/-- Size of `school` in `struct runner` and of the local `school`. -/
def LEN_SCHOOL : Nat := 100

/-- The record `struct runner` without its list linkage. -/
structure runner where
  lane : Int
  bib_num : Int
  name : List Nat
  school : List Nat
  qual_time : Int
  record_time : Int
deriving DecidableEq, Repr

/-- An observable step of a call. -/
inductive Event where
  | mutex_lock
  | mutex_unlock
  | printk (line : List Nat)
deriving DecidableEq, Repr

/-- Kernel `vsnprintf`, restricted to the directives of this driver: literal
bytes, `%d`, `%02d` (flag `0`, width 2) and `%s`.  A directive whose argument is
missing or of the other kind ends the output. -/
def vsnprintf : List Nat → List Arg → List Nat
  | [], _ => []
  | 37 :: 100 :: fmt, Arg.int v :: args => number v 0 ++ vsnprintf fmt args
  | 37 :: 48 :: 50 :: 100 :: fmt, Arg.int v :: args => number v 2 ++ vsnprintf fmt args
  | 37 :: 115 :: fmt, Arg.str s :: args => s ++ vsnprintf fmt args
  | 37 :: _, _ => []
  | c :: fmt, args => c :: vsnprintf fmt args

/-- The arguments the three runner records pass to `printk`: the fields of the
node, each time split by `/ 100` and `% 100` (C division truncates). -/
def record_args (runner_node : runner) : List Arg :=
  [Arg.int runner_node.lane, Arg.int runner_node.bib_num, Arg.str runner_node.name,
    Arg.str runner_node.school,
    Arg.int (runner_node.qual_time.tdiv 100), Arg.int (runner_node.qual_time.tmod 100),
    Arg.int (runner_node.record_time.tdiv 100), Arg.int (runner_node.record_time.tmod 100)]

/-- The record printed by the `ADD` branch. -/
def added_record (runner_node : runner) : List Nat :=
  vsnprintf
    (bytes ("[runners] Added Runner: Lane: %d | Bib: %d | Name: %s | School: %s | "
      ++ "Qualifier Time: %d.%02d | Personal Record: %d.%02d\n"))
    (record_args runner_node)

/-- The record printed by the `REMOVE` branch. -/
def removed_record (runner_node : runner) : List Nat :=
  vsnprintf
    (bytes ("[runners] Removed Runner: Lane: %d | Bib: %d | Name: %s | School: %s | "
      ++ "Qualifier Time: %d.%02d | Personal Record: %d.%02d\n"))
    (record_args runner_node)

/-- The record printed for each runner by the `PRINT` branch. -/
def print_record (runner_node : runner) : List Nat :=
  vsnprintf
    (bytes ("[runners] Lane: %d | Bib: %d | Name: %s | School: %s | "
      ++ "Qualifier Time: %d.%02d | Personal Record: %d.%02d\n"))
    (record_args runner_node)

/-- The `list_for_each_entry_safe` loop of the `REMOVE` branch: walks the roster
from the head, deletes the first node whose `bib_num` equals `bib`, prints it and
breaks.  Returns the roster left behind and the events of the loop. -/
def remove_loop (bib : Int) : List runner → List runner × List Event
  | [] => ([], [])
  | runner_node :: rest =>
    if runner_node.bib_num = bib then
      (rest, [Event.printk (removed_record runner_node)])
    else
      let r := remove_loop bib rest
      (runner_node :: r.1, r.2)

/-- The `list_for_each_entry` loop of the `PRINT` branch. -/
def print_loop (l : List runner) : List Event :=
  l.map (fun runner_node => Event.printk (print_record runner_node))

/-! ## `runners_write` -/

/-- Error number `EINVAL`. -/
def EINVAL : Int := 22

/-- Error number `EFAULT`. -/
def EFAULT : Int := 14

/-- What a call of `runners_write` that runs to its `return` leaves behind: the
returned value, the roster and the events in program order. -/
structure Result where
  ret : Int
  list_of_runners : List runner
  trace : List Event
deriving DecidableEq, Repr

/-- The `printk` records of a result, in order. -/
def Result.log (r : Result) : List (List Nat) :=
  r.trace.filterMap (fun e => match e with
    | Event.printk line => some line
    | _ => none)

/-- Whether a conversion stored a string that does not fit, with its
terminator, an array of `cap` bytes. -/
def overruns (cap : Nat) (args : List Arg) : Bool :=
  args.any (fun a => match a with
    | Arg.str s => decide (cap ≤ s.length)
    | Arg.int _ => false)

/-- The branches of `runners_write` between `mutex_lock` and `mutex_unlock`,
given the contents of `kernel_buffer` and of `cmd`.  Returns the new roster and
the events of the branch, or `none` when the `ADD` scan overruns `name` or
`school`. -/
def dispatch (list_of_runners : List runner) (kernel_buffer cmd : List Nat) :
    Option (List runner × List Event) :=
  if cmd = bytes "ADD" then
    let args := vsscanf kernel_buffer (bytes "ADD %d %d %s %s %d.%d %d.%d")
    if overruns LEN_NAME args then none
    else
      match args with
      | [Arg.int lane, Arg.int bib, Arg.str name, Arg.str school,
          Arg.int qual_time_s, Arg.int qual_time_ms,
          Arg.int record_time_s, Arg.int record_time_ms] =>
        let runner_node : runner :=
          { lane := lane, bib_num := bib, name := name, school := school,
            qual_time := to_int (qual_time_s * 100 + qual_time_ms),
            record_time := to_int (record_time_s * 100 + record_time_ms) }
        some (list_of_runners ++ [runner_node],
              [Event.printk (added_record runner_node)])
      | _ => some (list_of_runners, [])
  else if cmd = bytes "REMOVE" then
    match vsscanf kernel_buffer (bytes "REMOVE %d") with
    | [Arg.int bib] => some (remove_loop bib list_of_runners)
    | _ => some (list_of_runners, [])
  else if cmd = bytes "PRINT" then
    some (list_of_runners,
      [Event.printk (bytes "[runners] Printing entire list of runners:\n")]
        ++ print_loop list_of_runners
        ++ [Event.printk (bytes "[runners] End of list.\n")])
  else some (list_of_runners, [])

/-- The keyword scan `sscanf(kernel_buffer, "%s", cmd)` into `char cmd[16]`:
the contents of `cmd` after the call, or `none` when the token and its
terminator do not fit the array.  When the scan stores nothing, `cmd` keeps what
it held. -/
def scan_keyword (kernel_buffer cmd : List Nat) : Option (List Nat) :=
  let scanned := vsscanf kernel_buffer (bytes "%s")
  if overruns 16 scanned then none
  else
    match scanned with
    | [Arg.str s] => some s
    | _ => some cmd

/-- The write handler `runners_write`.

* `list_of_runners` is the roster when the call starts;
* `cmd` is the C string found in the uninitialised array `cmd` on entry (it is
  read only when the keyword scan stores nothing);
* `buf` is the readable user memory at the caller's pointer and `len` the
  requested length: `copy_from_user` succeeds when `len` bytes are readable.

The result is `none` when the call writes past the end of `cmd`, `name` or
`school`. -/
def runners_write (list_of_runners : List runner) (cmd buf : List Nat) (len : Nat) :
    Option Result :=
  if 100 ≤ len then some ⟨-EINVAL, list_of_runners, []⟩
  else if buf.length < len then some ⟨-EFAULT, list_of_runners, []⟩
  else
    let kernel_buffer := cstr (buf.take len)
    match scan_keyword kernel_buffer cmd with
    | none => none
    | some cmd1 =>
      match dispatch list_of_runners kernel_buffer cmd1 with
      | none => none
      | some (l, events) =>
        some ⟨len, l, [Event.mutex_lock] ++ events ++ [Event.mutex_unlock]⟩

/-- A sequence of writes, each of a whole payload from readable memory, applied
in order; the traces are concatenated.  `cmd` is what the array `cmd` holds on
entry of every call. -/
def run (cmd : List Nat) : List runner → List (List Nat) → Option (List runner × List Event)
  | l, [] => some (l, [])
  | l, p :: ps =>
    match runners_write l cmd p p.length with
    | none => none
    | some r =>
      match run cmd r.list_of_runners ps with
      | none => none
      | some (l2, t) => some (l2, r.trace ++ t)

/-! ## Well-formed command lines (grammar of the specification) -/

/-- A decimal integer as it is written on a command line: an optional minus
sign and the digit bytes. -/
structure IntLit where
  neg : Bool
  digits : List Nat
deriving DecidableEq, Repr

/-- The value of a digit string read in base 10. -/
def decval (ds : List Nat) : Nat := ds.foldl (fun a c => a * 10 + (c - 48)) 0

/-- The bytes of a written integer. -/
def IntLit.text (t : IntLit) : List Nat := (if t.neg then [45] else []) ++ t.digits

/-- The integer a written integer denotes. -/
def IntLit.val (t : IntLit) : Int := if t.neg then -(decval t.digits : Int) else decval t.digits

/-- A written integer has at least one digit and only digits. -/
def IntLit.wf (t : IntLit) : Prop := t.digits ≠ [] ∧ ∀ c ∈ t.digits, isdigit c = true

instance (t : IntLit) : Decidable t.wf :=
  inferInstanceAs (Decidable (t.digits ≠ [] ∧ ∀ c ∈ t.digits, isdigit c = true))

/-- A token: a non-empty run of bytes with no white space and no NUL. -/
def IsToken (n : List Nat) : Prop := n ≠ [] ∧ ∀ c ∈ n, isspace c = false ∧ c ≠ 0

instance (n : List Nat) : Decidable (IsToken n) :=
  inferInstanceAs (Decidable (n ≠ [] ∧ ∀ c ∈ n, isspace c = false ∧ c ≠ 0))

/-- Trailing blank: white space only (possibly nothing), as the newline the
reference client appends. -/
def IsBlank (w : List Nat) : Prop := ∀ c ∈ w, isspace c = true

instance (w : List Nat) : Decidable (IsBlank w) :=
  inferInstanceAs (Decidable (∀ c ∈ w, isspace c = true))

/-- The input does not continue with a digit. -/
def NoDigitHead (x : List Nat) : Prop := ∀ c, x.head? = some c → isdigit c = false

/-- The input is at its end or continues with white space. -/
def SpaceHead (x : List Nat) : Prop := ∀ c, x.head? = some c → isspace c = true

/-- A well-formed `ADD` line: the keyword and the six fields of the grammar
`ADD <lane> <bib> <name> <school> <qual_s>.<qual_ms> <rec_s>.<rec_ms>`, separated
by single spaces as the reference client joins them, followed by `tail`. -/
structure AddLine where
  lane : IntLit
  bib : IntLit
  name : List Nat
  school : List Nat
  qual_s : IntLit
  qual_ms : IntLit
  rec_s : IntLit
  rec_ms : IntLit
  tail : List Nat
deriving DecidableEq, Repr

/-- The bytes of an `ADD` line. -/
def AddLine.text (a : AddLine) : List Nat :=
  bytes "ADD " ++ a.lane.text ++ bytes " " ++ a.bib.text ++ bytes " " ++ a.name
    ++ bytes " " ++ a.school ++ bytes " " ++ a.qual_s.text ++ bytes "." ++ a.qual_ms.text
    ++ bytes " " ++ a.rec_s.text ++ bytes "." ++ a.rec_ms.text ++ a.tail

/-- Every field of the line is well formed and only white space follows the last
field. -/
def AddLine.wf (a : AddLine) : Prop :=
  a.lane.wf ∧ a.bib.wf ∧ IsToken a.name ∧ IsToken a.school ∧ a.qual_s.wf ∧ a.qual_ms.wf
    ∧ a.rec_s.wf ∧ a.rec_ms.wf ∧ IsBlank a.tail

instance (a : AddLine) : Decidable a.wf :=
  inferInstanceAs (Decidable (a.lane.wf ∧ a.bib.wf ∧ IsToken a.name ∧ IsToken a.school
    ∧ a.qual_s.wf ∧ a.qual_ms.wf ∧ a.rec_s.wf ∧ a.rec_ms.wf ∧ IsBlank a.tail))

/-- The runner an `ADD` line describes: its fields as `int` values and each time
encoded as `seconds * 100 + hundredths`. -/
def AddLine.runner (a : AddLine) : runner :=
  { lane := to_int a.lane.val, bib_num := to_int a.bib.val, name := a.name, school := a.school,
    qual_time := to_int (a.qual_s.val * 100 + a.qual_ms.val),
    record_time := to_int (a.rec_s.val * 100 + a.rec_ms.val) }

/-- A well-formed `REMOVE` line: the keyword, one space, the written bib number
and `tail`. -/
def remove_line (bib : IntLit) (tail : List Nat) : List Nat :=
  bytes "REMOVE " ++ bib.text ++ tail

/-- A `PRINT` line: the keyword and `tail`. -/
def print_line (tail : List Nat) : List Nat := bytes "PRINT" ++ tail

/-- The events of a `PRINT` on a roster: the start marker, one record per runner
in roster order, the end marker, inside the locked section. -/
def print_trace (l : List runner) : List Event :=
  [Event.mutex_lock, Event.printk (bytes "[runners] Printing entire list of runners:\n")]
    ++ l.map (fun r => Event.printk (print_record r))
    ++ [Event.printk (bytes "[runners] End of list.\n"), Event.mutex_unlock]

/-- The events of a sequence of well-formed `ADD` lines, one locked section with
one record per line. -/
def added_trace : List AddLine → List Event
  | [] => []
  | a :: rest =>
    Event.mutex_lock :: Event.printk (added_record a.runner) :: Event.mutex_unlock
      :: added_trace rest

/-- The usual decimal writing of a natural number, most significant digit
first, without leading zeros. -/
def decimal (n : Nat) : List Nat :=
  if n = 0 then [48] else (Nat.digits 10 n).reverse.map (fun d => 48 + d)

/-- A number below 100 written with exactly two digits. -/
def two_digits (h : Nat) : List Nat := [48 + h / 10, 48 + h % 10]

/-- The body of a runner record in terms of the output routine `number`: the
text between the prefix and the newline that the directives
`Lane: %d | Bib: %d | Name: %s | School: %s | Qualifier Time: %d.%02d | Personal Record: %d.%02d`
produce for a runner.  `spec_body` is the same body in decimal notation. -/
def record_body (r : runner) : List Nat :=
  bytes "Lane: " ++ number r.lane 0 ++ bytes " | Bib: " ++ number r.bib_num 0
    ++ bytes " | Name: " ++ r.name ++ bytes " | School: " ++ r.school
    ++ bytes " | Qualifier Time: " ++ number (r.qual_time.tdiv 100) 0
    ++ bytes "." ++ number (r.qual_time.tmod 100) 2
    ++ bytes " | Personal Record: " ++ number (r.record_time.tdiv 100) 0
    ++ bytes "." ++ number (r.record_time.tmod 100) 2

/-- The first white-space-delimited token of a command line. -/
def keyword (kernel_buffer : List Nat) : List Nat :=
  (skip_spaces kernel_buffer).takeWhile (fun c => !isspace c)

/-- The `ADD` line whose two time fields read `s1.hh1` and `s2.hh2`: seconds in
the usual decimal writing, hundredths with exactly two digits. -/
def timed_line (lane bib : IntLit) (name school : List Nat) (s1 h1 s2 h2 : Nat)
    (tail : List Nat) : AddLine :=
  { lane := lane, bib := bib, name := name, school := school,
    qual_s := ⟨false, decimal s1⟩, qual_ms := ⟨false, two_digits h1⟩,
    rec_s := ⟨false, decimal s2⟩, rec_ms := ⟨false, two_digits h2⟩, tail := tail }

/-! ## Example inputs -/

/-- The line `ADD 3 101 Ana Lincoln 12.34 11.00`. -/
def ana : AddLine :=
  { lane := ⟨false, bytes "3"⟩, bib := ⟨false, bytes "101"⟩, name := bytes "Ana",
    school := bytes "Lincoln", qual_s := ⟨false, bytes "12"⟩, qual_ms := ⟨false, bytes "34"⟩,
    rec_s := ⟨false, bytes "11"⟩, rec_ms := ⟨false, bytes "00"⟩, tail := [] }

/-- The line `ADD 5 101 Ben Mercer 13.07 12.80` followed by a newline: a second
runner with the bib number of `ana`. -/
def ben : AddLine :=
  { lane := ⟨false, bytes "5"⟩, bib := ⟨false, bytes "101"⟩, name := bytes "Ben",
    school := bytes "Mercer", qual_s := ⟨false, bytes "13"⟩, qual_ms := ⟨false, bytes "07"⟩,
    rec_s := ⟨false, bytes "12"⟩, rec_ms := ⟨false, bytes "80"⟩, tail := bytes "\n" }

/-- The line `ADD 7 230 Cy Dover 9.58 9.58` followed by a newline. -/
def cy : AddLine :=
  { lane := ⟨false, bytes "7"⟩, bib := ⟨false, bytes "230"⟩, name := bytes "Cy",
    school := bytes "Dover", qual_s := ⟨false, bytes "9"⟩, qual_ms := ⟨false, bytes "58"⟩,
    rec_s := ⟨false, bytes "9"⟩, rec_ms := ⟨false, bytes "58"⟩, tail := bytes "\n" }

/-! ## `runners_init` -/

/-- Kernel `MAX_ERRNO`. -/
def MAX_ERRNO : Nat := 4095

/-- Kernel `IS_ERR` on a 64-bit pointer value: the top `MAX_ERRNO` addresses
encode error numbers. -/
def IS_ERR (ptr : Nat) : Bool := decide (2 ^ 64 - MAX_ERRNO ≤ ptr)

/-- Kernel `PTR_ERR`: the pointer value read as a `long`. -/
def PTR_ERR (ptr : Nat) : Int := if ptr < 2 ^ 63 then (ptr : Int) else (ptr : Int) - 2 ^ 64

/-- An observable step of `runners_init`. -/
inductive InitEvent where
  | register_chrdev
  | class_create
  | pr_err (line : List Nat)
  | device_create
  | printk (line : List Nat)
deriving DecidableEq, Repr

/-- What `runners_init` leaves behind: the returned `int` and the steps taken,
in program order. -/
structure InitResult where
  ret : Int
  trace : List InitEvent
deriving DecidableEq, Repr

/-- The module initialiser `runners_init`, given the pointer value that
`class_create` returns.

In the source the `if (IS_ERR(runner_class))` has no braces, so it governs the
`pr_err` line only, and `return PTR_ERR(runner_class);` is the next statement of
the function body: it is executed whether or not the class was created.  The
statements that follow it (`device_create`, the `printk` of
`/dev/runners loaded and ready`, `return 0`) are never reached.  The `long` of
`PTR_ERR` is converted to the `int` the function returns. -/
def runners_init (runner_class : Nat) : InitResult :=
  let t0 : List InitEvent := [InitEvent.register_chrdev, InitEvent.class_create]
  let t1 : List InitEvent :=
    if IS_ERR runner_class then
      t0 ++ [InitEvent.pr_err (bytes "[runners] Could not create device class.\n")]
    else t0
  ⟨to_int (PTR_ERR runner_class), t1⟩

/-! ## Lines with trailing input and other written forms -/

/-- The eight fields of an `ADD` line are well formed; nothing is asked of what
follows the last field. -/
def AddLine.fields_wf (a : AddLine) : Prop :=
  a.lane.wf ∧ a.bib.wf ∧ IsToken a.name ∧ IsToken a.school ∧ a.qual_s.wf ∧ a.qual_ms.wf
    ∧ a.rec_s.wf ∧ a.rec_ms.wf

instance (a : AddLine) : Decidable a.fields_wf :=
  inferInstanceAs (Decidable (a.lane.wf ∧ a.bib.wf ∧ IsToken a.name ∧ IsToken a.school
    ∧ a.qual_s.wf ∧ a.qual_ms.wf ∧ a.rec_s.wf ∧ a.rec_ms.wf))

/-- What may follow the last field of a line: nothing, or a white-space byte and
then any bytes other than NUL, such as further tokens. -/
def IsTrailing (tail : List Nat) : Prop := SpaceHead tail ∧ ∀ c ∈ tail, c ≠ 0

/-- The `ADD` line whose two time fields read `s1.h1` and `s2.h2` with the
hundredths in the usual decimal writing, whatever their size. -/
def plain_time_line (lane bib : IntLit) (name school : List Nat) (s1 h1 s2 h2 : Nat)
    (tail : List Nat) : AddLine :=
  { lane := lane, bib := bib, name := name, school := school,
    qual_s := ⟨false, decimal s1⟩, qual_ms := ⟨false, decimal h1⟩,
    rec_s := ⟨false, decimal s2⟩, rec_ms := ⟨false, decimal h2⟩, tail := tail }

/-! ## Formats for which a trailing newline makes no difference -/

/-- The format begins with the conversion `%s`. -/
def starts_s (fmt : List Nat) : Bool :=
  match fmt with
  | 37 :: 115 :: _ => true
  | _ => false

/-- Every `%s` of the format that is not at its very beginning follows a
white-space directive. -/
def guarded : List Nat → Bool
  | [] => true
  | c :: fmt => (isspace c || !starts_s fmt) && guarded fmt

/-! ## Written forms used to state the record format and short lines -/

/-- The four numeric fields of the record hold values of the C type `int`. -/
def runner.is_int (r : runner) : Prop :=
  (-2 ^ 31 ≤ r.lane ∧ r.lane < 2 ^ 31) ∧ (-2 ^ 31 ≤ r.bib_num ∧ r.bib_num < 2 ^ 31)
    ∧ (-2 ^ 31 ≤ r.qual_time ∧ r.qual_time < 2 ^ 31)
    ∧ (-2 ^ 31 ≤ r.record_time ∧ r.record_time < 2 ^ 31)

instance (r : runner) : Decidable r.is_int :=
  inferInstanceAs (Decidable ((-2 ^ 31 ≤ r.lane ∧ r.lane < 2 ^ 31)
    ∧ (-2 ^ 31 ≤ r.bib_num ∧ r.bib_num < 2 ^ 31)
    ∧ (-2 ^ 31 ≤ r.qual_time ∧ r.qual_time < 2 ^ 31)
    ∧ (-2 ^ 31 ≤ r.record_time ∧ r.record_time < 2 ^ 31)))

/-- The eight fields of an `ADD` line in order, each with the separator that
precedes it: a space, or the point between seconds and hundredths. -/
def AddLine.pieces (a : AddLine) : List (List Nat) :=
  [bytes " " ++ a.lane.text, bytes " " ++ a.bib.text, bytes " " ++ a.name,
    bytes " " ++ a.school, bytes " " ++ a.qual_s.text, bytes "." ++ a.qual_ms.text,
    bytes " " ++ a.rec_s.text, bytes "." ++ a.rec_ms.text]

/-- The `ADD` line cut after its first `k` fields: the keyword, the first `k`
fields with their separators, and the tail.  With `k = 8` it is the whole
line. -/
def AddLine.truncated (a : AddLine) (k : Nat) : List Nat :=
  bytes "ADD" ++ (a.pieces.take k).foldr (fun p rest => p ++ rest) [] ++ a.tail

/-- A `REMOVE` line without its field: the keyword and `tail`. -/
def remove_bare (tail : List Nat) : List Nat := bytes "REMOVE" ++ tail

/-! ## Scanning lemmas -/

theorem isspace_iff (c : Nat) : isspace c = true ↔ ((9 ≤ c ∧ c ≤ 13) ∨ c = 32 ∨ c = 160) := by
  simp [isspace, or_assoc]

theorem isdigit_iff (c : Nat) : isdigit c = true ↔ (48 ≤ c ∧ c ≤ 57) := by
  simp [isdigit]

theorem isspace_false_of_isdigit {c : Nat} (h : isdigit c = true) : isspace c = false := by
  rw [isdigit_iff] at h
  cases hs : isspace c with
  | false => rfl
  | true => rw [isspace_iff] at hs; omega

theorem cstr_eq_self {l : List Nat} (h : ∀ c ∈ l, c ≠ 0) : cstr l = l := by
  unfold cstr
  rw [List.takeWhile_eq_self_iff]
  intro c hc
  simpa using h c hc

theorem skip_spaces_cons_of_not {c : Nat} (x : List Nat) (h : isspace c = false) :
    skip_spaces (c :: x) = c :: x := by
  simp [skip_spaces, List.dropWhile, h]

theorem skip_spaces_cons_of {c : Nat} (x : List Nat) (h : isspace c = true) :
    skip_spaces (c :: x) = skip_spaces x := by
  simp [skip_spaces, List.dropWhile, h]

theorem skip_spaces_blank {w : List Nat} (h : IsBlank w) : skip_spaces w = [] := by
  induction w with
  | nil => rfl
  | cons c w ih =>
    rw [skip_spaces_cons_of _ (h c (by simp))]
    exact ih (fun d hd => h d (by simp [hd]))

theorem takeWhile_token {n x : List Nat} (hn : ∀ c ∈ n, isspace c = false ∧ c ≠ 0)
    (hx : SpaceHead x) : (n ++ x).takeWhile (fun c => !isspace c) = n := by
  induction n with
  | nil =>
    cases x with
    | nil => rfl
    | cons c x => simp [List.takeWhile, hx c rfl]
  | cons c n ih =>
    have hc := (hn c (by simp)).1
    rw [List.cons_append, List.takeWhile_cons, ih (fun d hd => hn d (by simp [hd]))]
    simp [hc]

theorem dropWhile_token {n x : List Nat} (hn : ∀ c ∈ n, isspace c = false ∧ c ≠ 0)
    (hx : SpaceHead x) : (n ++ x).dropWhile (fun c => !isspace c) = x := by
  induction n with
  | nil =>
    cases x with
    | nil => rfl
    | cons c x => simp [List.dropWhile, hx c rfl]
  | cons c n ih =>
    have hc := (hn c (by simp)).1
    rw [List.cons_append, List.dropWhile_cons]
    simp only [hc, Bool.not_false, if_true]
    exact ih (fun d hd => hn d (by simp [hd]))

theorem parse_integer_limit_digits {ds : List Nat} (hd : ∀ c ∈ ds, isdigit c = true)
    {x : List Nat} (hx : NoDigitHead x) (res : Nat) :
    parse_integer_limit (ds ++ x) res
      = (ds.foldl (fun a c => (a * 10 + (c - 48)) % 2 ^ 64) res, x) := by
  induction ds generalizing res with
  | nil =>
    cases x with
    | nil => rfl
    | cons c x => simp [parse_integer_limit, hx c rfl]
  | cons c ds ih =>
    simp only [List.cons_append, parse_integer_limit, hd c (by simp), if_true, List.foldl_cons]
    exact ih (fun d h => hd d (by simp [h])) _

theorem foldl_wrap_congr (ds : List Nat) (a b : Nat) (h : a % 2 ^ 64 = b % 2 ^ 64) :
    (ds.foldl (fun a c => (a * 10 + (c - 48)) % 2 ^ 64) a) % 2 ^ 64
      = (ds.foldl (fun a c => a * 10 + (c - 48)) b) % 2 ^ 64 := by
  induction ds generalizing a b with
  | nil => simpa using h
  | cons c ds ih =>
    simp only [List.foldl_cons]
    apply ih
    norm_num at h ⊢
    omega

theorem foldl_wrap_lt (ds : List Nat) (a : Nat) (h : a < 2 ^ 64) :
    ds.foldl (fun a c => (a * 10 + (c - 48)) % 2 ^ 64) a < 2 ^ 64 := by
  induction ds generalizing a with
  | nil => simpa using h
  | cons c ds ih =>
    simp only [List.foldl_cons]
    exact ih _ (Nat.mod_lt _ (by norm_num))

theorem to_int_congr {u v : Int} (h : u % 2 ^ 32 = v % 2 ^ 32) : to_int u = to_int v := by
  unfold to_int
  norm_num at h ⊢
  omega

theorem to_int_of_range {v : Int} (h1 : -2 ^ 31 ≤ v) (h2 : v < 2 ^ 31) : to_int v = v := by
  unfold to_int
  norm_num at h1 h2 ⊢
  omega

theorem simple_strntoll_lit {t : IntLit} (ht : t.wf) {x : List Nat} (hx : NoDigitHead x) :
    (simple_strntoll (t.text ++ x)).2 = x
      ∧ to_int ((simple_strntoll (t.text ++ x)).1 : Int) = to_int t.val := by
  obtain ⟨neg, ds⟩ := t
  obtain ⟨hne, hd⟩ := ht
  simp only at hne hd
  have hw := foldl_wrap_congr ds 0 0 rfl
  have hlt := foldl_wrap_lt ds 0 (by norm_num)
  cases neg with
  | true =>
    have htext : IntLit.text ⟨true, ds⟩ ++ x = 45 :: (ds ++ x) := by simp [IntLit.text]
    rw [htext]
    simp only [simple_strntoll, List.head?_cons, List.tail_cons, simple_strntoull,
      parse_integer_limit_digits hd hx, IntLit.val, decval, if_true]
    refine ⟨trivial, to_int_congr ?_⟩
    generalize ds.foldl (fun a c => (a * 10 + (c - 48)) % 2 ^ 64) 0 = u at hw hlt
    generalize ds.foldl (fun a c => a * 10 + (c - 48)) 0 = v at hw
    push_cast
    norm_num at hw hlt ⊢
    omega
  | false =>
    have htext : IntLit.text ⟨false, ds⟩ ++ x = ds ++ x := by simp [IntLit.text]
    rw [htext]
    have h45 : (ds ++ x).head? ≠ some 45 := by
      obtain ⟨d, ds1, rfl⟩ := List.exists_cons_of_ne_nil hne
      have hd0 := (isdigit_iff d).1 (hd d (by simp))
      simp only [List.cons_append, List.head?_cons, ne_eq, Option.some.injEq]
      omega
    simp only [simple_strntoll, h45, if_false, simple_strntoull,
      parse_integer_limit_digits hd hx, IntLit.val, decval, Bool.false_eq_true]
    refine ⟨trivial, to_int_congr ?_⟩
    generalize ds.foldl (fun a c => (a * 10 + (c - 48)) % 2 ^ 64) 0 = u at hw hlt
    generalize ds.foldl (fun a c => a * 10 + (c - 48)) 0 = v at hw
    push_cast
    norm_num at hw hlt ⊢
    omega

theorem intLit_text_head {t : IntLit} (ht : t.wf) :
    ∃ c rest, t.text = c :: rest ∧ isspace c = false ∧ c ≠ 0
      ∧ (if c = 45 then ∃ d rest1, rest = d :: rest1 ∧ isdigit d = true else isdigit c = true) := by
  obtain ⟨neg, ds⟩ := t
  obtain ⟨hne, hd⟩ := ht
  simp only at hne hd
  obtain ⟨d, ds1, rfl⟩ := List.exists_cons_of_ne_nil hne
  have hd1 := hd d (by simp)
  have hd0 := (isdigit_iff d).1 hd1
  cases neg with
  | true =>
    refine ⟨45, d :: ds1, by simp [IntLit.text], by decide, by decide, ?_⟩
    simp [hd1]
  | false =>
    refine ⟨d, ds1, by simp [IntLit.text], isspace_false_of_isdigit hd1, by omega, ?_⟩
    have h45 : d ≠ 45 := by omega
    simp [h45, hd1]

theorem vsscanf_d {t : IntLit} (ht : t.wf) {x : List Nat} (hx : NoDigitHead x) (fmt : List Nat) :
    vsscanf (t.text ++ x) (37 :: 100 :: fmt) = Arg.int (to_int t.val) :: vsscanf x fmt := by
  obtain ⟨h2, hv⟩ := simple_strntoll_lit ht hx
  obtain ⟨c, rest, hc, hsp, _, hdig⟩ := intLit_text_head ht
  have hskip : skip_spaces (t.text ++ x) = t.text ++ x := by
    rw [hc, List.cons_append]; exact skip_spaces_cons_of_not _ hsp
  have hne : t.text ++ x ≠ [] := by rw [hc]; simp
  have hdigit : (if (t.text ++ x).head? = some 45 then (t.text ++ x).tail.head?
      else (t.text ++ x).head?) = some (if c = 45 then rest.head?.getD 0 else c) := by
    rw [hc]
    by_cases h45 : c = 45
    · subst h45
      simp only [if_true] at hdig
      obtain ⟨d, rest1, rfl, _⟩ := hdig
      simp
    · simp [h45]
  have hisd : isdigit (if c = 45 then rest.head?.getD 0 else c) = true := by
    by_cases h45 : c = 45
    · subst h45
      simp only [if_true] at hdig
      obtain ⟨d, rest1, rfl, hd⟩ := hdig
      simpa using hd
    · simp only [h45, if_false] at hdig
      simpa [h45] using hdig
  rw [vsscanf.eq_3]
  simp only [hne, if_false, hskip, hdigit, hisd, if_true, h2, hv]

theorem vsscanf_s {n : List Nat} (hn : IsToken n) {x : List Nat} (hx : SpaceHead x)
    (fmt : List Nat) :
    vsscanf (n ++ x) (37 :: 115 :: fmt) = Arg.str n :: vsscanf x fmt := by
  obtain ⟨hne, hall⟩ := hn
  have hskip : skip_spaces (n ++ x) = n ++ x := by
    obtain ⟨c, n1, rfl⟩ := List.exists_cons_of_ne_nil hne
    exact skip_spaces_cons_of_not _ (hall c (by simp)).1
  have hne2 : n ++ x ≠ [] := by simp [hne]
  rw [vsscanf.eq_2]
  simp only [hne2, if_false, hskip, takeWhile_token hall hx, dropWhile_token hall hx]

theorem vsscanf_other {c : Nat} (h37 : c ≠ 37) (str fmt : List Nat) :
    vsscanf str (c :: fmt)
      = if isspace c = true then vsscanf (skip_spaces str) fmt
        else match str with
          | [] => []
          | s :: str1 => if c = s then vsscanf str1 fmt else [] := by
  cases str <;> simp [vsscanf, h37]

theorem vsscanf_space {c : Nat} (hc : isspace c = true) (str fmt : List Nat) :
    vsscanf str (c :: fmt) = vsscanf (skip_spaces str) fmt := by
  have h37 : c ≠ 37 := by
    rw [isspace_iff] at hc; omega
  rw [vsscanf_other h37, if_pos hc]

theorem vsscanf_literal {c : Nat} (hc : isspace c = false) (h37 : c ≠ 37) (x fmt : List Nat) :
    vsscanf (c :: x) (c :: fmt) = vsscanf x fmt := by
  rw [vsscanf_other h37]
  simp [hc]

theorem noDigitHead_cons {c : Nat} (x : List Nat) (h : isdigit c = false) :
    NoDigitHead (c :: x) := by
  intro d hd
  simp only [List.head?_cons, Option.some.injEq] at hd
  subst hd; exact h

theorem spaceHead_cons {c : Nat} (x : List Nat) (h : isspace c = true) :
    SpaceHead (c :: x) := by
  intro d hd
  simp only [List.head?_cons, Option.some.injEq] at hd
  subst hd; exact h

theorem noDigitHead_blank {w : List Nat} (h : IsBlank w) : NoDigitHead w := by
  intro c hc
  cases w with
  | nil => simp at hc
  | cons d w =>
    simp only [List.head?_cons, Option.some.injEq] at hc
    subst hc
    have hs := h d (by simp)
    cases hd : isdigit d with
    | false => rfl
    | true => rw [isspace_false_of_isdigit hd] at hs; cases hs

theorem spaceHead_blank {w : List Nat} (h : IsBlank w) : SpaceHead w := by
  intro c hc
  cases w with
  | nil => simp at hc
  | cons d w =>
    simp only [List.head?_cons, Option.some.injEq] at hc
    subst hc
    exact h d (by simp)

theorem skip_spaces_lit {t : IntLit} (ht : t.wf) (x : List Nat) :
    skip_spaces (t.text ++ x) = t.text ++ x := by
  obtain ⟨c, rest, hc, hsp, _, _⟩ := intLit_text_head ht
  rw [hc, List.cons_append]; exact skip_spaces_cons_of_not _ hsp

theorem skip_spaces_token {n : List Nat} (hn : IsToken n) (x : List Nat) :
    skip_spaces (n ++ x) = n ++ x := by
  obtain ⟨c, n1, rfl⟩ := List.exists_cons_of_ne_nil hn.1
  exact skip_spaces_cons_of_not _ (hn.2 c (by simp)).1

theorem intLit_text_ne_zero {t : IntLit} (ht : t.wf) : ∀ c ∈ t.text, c ≠ 0 := by
  intro c hc
  unfold IntLit.text at hc
  rw [List.mem_append] at hc
  rcases hc with hc | hc
  · split at hc
    · simp only [List.mem_singleton] at hc; omega
    · simp at hc
  · have := (isdigit_iff c).1 (ht.2 c hc); omega

theorem isBlank_ne_zero {w : List Nat} (h : IsBlank w) : ∀ c ∈ w, c ≠ 0 := by
  intro c hc
  have := (isspace_iff c).1 (h c hc); omega

theorem fmt_add_eq : bytes "ADD %d %d %s %s %d.%d %d.%d"
    = [65, 68, 68, 32, 37, 100, 32, 37, 100, 32, 37, 115, 32, 37, 115, 32, 37, 100, 46, 37, 100,
        32, 37, 100, 46, 37, 100] := by decide

theorem fmt_remove_eq : bytes "REMOVE %d" = [82, 69, 77, 79, 86, 69, 32, 37, 100] := by decide

theorem fmt_s_eq : bytes "%s" = [37, 115] := by decide

theorem addLine_text_eq (a : AddLine) :
    a.text = 65 :: 68 :: 68 :: 32 :: (a.lane.text ++ (32 :: (a.bib.text ++ (32 :: (a.name
      ++ (32 :: (a.school ++ (32 :: (a.qual_s.text ++ (46 :: (a.qual_ms.text
      ++ (32 :: (a.rec_s.text ++ (46 :: (a.rec_ms.text ++ a.tail))))))))))))))) := by
  have h1 : bytes "ADD " = [65, 68, 68, 32] := by decide
  have h2 : bytes " " = [32] := by decide
  have h3 : bytes "." = [46] := by decide
  simp only [AddLine.text, h1, h2, h3, List.append_assoc, List.cons_append, List.nil_append]

theorem addLine_text_ne_zero {a : AddLine} (h : a.wf) : ∀ c ∈ a.text, c ≠ 0 := by
  obtain ⟨h1, h2, h3, h4, h5, h6, h7, h8, h9⟩ := h
  intro c hc
  rw [addLine_text_eq] at hc
  simp only [List.mem_cons, List.mem_append] at hc
  rcases hc with hc | hc | hc | hc | hc | hc | hc | hc | hc | hc | hc | hc | hc | hc | hc | hc
    | hc | hc | hc
  any_goals omega
  · exact intLit_text_ne_zero h1 c hc
  · exact intLit_text_ne_zero h2 c hc
  · exact (h3.2 c hc).2
  · exact (h4.2 c hc).2
  · exact intLit_text_ne_zero h5 c hc
  · exact intLit_text_ne_zero h6 c hc
  · exact intLit_text_ne_zero h7 c hc
  · rcases hc with hc | hc
    · exact intLit_text_ne_zero h8 c hc
    · exact isBlank_ne_zero h9 c hc

theorem vsscanf_add {a : AddLine} (h : a.wf) :
    vsscanf a.text (bytes "ADD %d %d %s %s %d.%d %d.%d")
      = [Arg.int (to_int a.lane.val), Arg.int (to_int a.bib.val), Arg.str a.name,
          Arg.str a.school, Arg.int (to_int a.qual_s.val), Arg.int (to_int a.qual_ms.val),
          Arg.int (to_int a.rec_s.val), Arg.int (to_int a.rec_ms.val)] := by
  obtain ⟨h1, h2, h3, h4, h5, h6, h7, h8, h9⟩ := h
  have sp : isspace 32 = true := by decide
  have nd32 : isdigit 32 = false := by decide
  have nd46 : isdigit 46 = false := by decide
  rw [addLine_text_eq, fmt_add_eq]
  rw [vsscanf_literal (by decide) (by decide), vsscanf_literal (by decide) (by decide),
    vsscanf_literal (by decide) (by decide)]
  rw [vsscanf_space sp, skip_spaces_cons_of _ sp, skip_spaces_lit h1,
    vsscanf_d h1 (noDigitHead_cons _ nd32)]
  rw [vsscanf_space sp, skip_spaces_cons_of _ sp, skip_spaces_lit h2,
    vsscanf_d h2 (noDigitHead_cons _ nd32)]
  rw [vsscanf_space sp, skip_spaces_cons_of _ sp, skip_spaces_token h3,
    vsscanf_s h3 (spaceHead_cons _ sp)]
  rw [vsscanf_space sp, skip_spaces_cons_of _ sp, skip_spaces_token h4,
    vsscanf_s h4 (spaceHead_cons _ sp)]
  rw [vsscanf_space sp, skip_spaces_cons_of _ sp, skip_spaces_lit h5,
    vsscanf_d h5 (noDigitHead_cons _ nd46)]
  rw [vsscanf_literal (by decide) (by decide), vsscanf_d h6 (noDigitHead_cons _ nd32)]
  rw [vsscanf_space sp, skip_spaces_cons_of _ sp, skip_spaces_lit h7,
    vsscanf_d h7 (noDigitHead_cons _ nd46)]
  rw [vsscanf_literal (by decide) (by decide), vsscanf_d h8 (noDigitHead_blank h9)]
  rw [vsscanf.eq_1]

theorem vsscanf_keyword_add (a : AddLine) :
    vsscanf a.text (bytes "%s") = [Arg.str (bytes "ADD")] := by
  rw [addLine_text_eq, fmt_s_eq]
  have hb : bytes "ADD" = [65, 68, 68] := by decide
  have ht : IsToken [65, 68, 68] := by decide
  have hs : isspace 32 = true := by decide
  have h := vsscanf_s ht (spaceHead_cons (a.lane.text ++ (32 :: (a.bib.text ++ (32 :: (a.name
    ++ (32 :: (a.school ++ (32 :: (a.qual_s.text ++ (46 :: (a.qual_ms.text ++ (32 :: (a.rec_s.text
    ++ (46 :: (a.rec_ms.text ++ a.tail))))))))))))))) hs) []
  rw [vsscanf.eq_1] at h
  rw [hb]
  exact h

theorem to_int_encode (s h : Int) : to_int (to_int s * 100 + to_int h) = to_int (s * 100 + h) := by
  apply to_int_congr
  unfold to_int
  norm_num
  omega

theorem addLine_length_bounds (a : AddLine) :
    a.name.length ≤ a.text.length ∧ a.school.length ≤ a.text.length := by
  rw [addLine_text_eq]
  simp only [List.length_cons, List.length_append]
  omega

theorem keyword_add_ne : bytes "ADD" ≠ bytes "REMOVE" ∧ bytes "ADD" ≠ bytes "PRINT"
    ∧ bytes "REMOVE" ≠ bytes "PRINT" ∧ bytes "REMOVE" ≠ bytes "ADD" := by decide

theorem dispatch_add (l : List runner) {a : AddLine} (h : a.wf) (hlen : a.text.length < 100) :
    dispatch l a.text (bytes "ADD")
      = some (l ++ [a.runner], [Event.printk (added_record a.runner)]) := by
  have hb := addLine_length_bounds a
  have ho : overruns LEN_NAME [Arg.int (to_int a.lane.val), Arg.int (to_int a.bib.val),
      Arg.str a.name, Arg.str a.school, Arg.int (to_int a.qual_s.val),
      Arg.int (to_int a.qual_ms.val), Arg.int (to_int a.rec_s.val),
      Arg.int (to_int a.rec_ms.val)] = false := by
    simp only [overruns, LEN_NAME, List.any_cons, List.any_nil, Bool.or_false, Bool.false_or,
      Bool.or_eq_false_iff, decide_eq_false_iff_not, not_le]
    omega
  unfold dispatch
  simp only [if_true, vsscanf_add h, ho, Bool.false_eq_true, if_false, to_int_encode]
  rfl

theorem scan_keyword_add (cmd : List Nat) (a : AddLine) :
    scan_keyword a.text cmd = some (bytes "ADD") := by
  have hk : overruns 16 [Arg.str (bytes "ADD")] = false := by decide
  unfold scan_keyword
  simp only [vsscanf_keyword_add, hk, Bool.false_eq_true, if_false]

theorem runners_write_ok (l : List runner) (cmd buf : List Nat) (h0 : ∀ c ∈ buf, c ≠ 0)
    (hlen : buf.length < 100) :
    runners_write l cmd buf buf.length
      = match scan_keyword buf cmd with
        | none => none
        | some cmd1 =>
          match dispatch l buf cmd1 with
          | none => none
          | some (l2, events) =>
            some ⟨buf.length, l2, [Event.mutex_lock] ++ events ++ [Event.mutex_unlock]⟩ := by
  have h100 : ¬ 100 ≤ buf.length := by omega
  unfold runners_write
  rw [if_neg h100, if_neg (lt_irrefl _)]
  simp only [List.take_length, cstr_eq_self h0]

theorem runners_write_add (l : List runner) (cmd : List Nat) {a : AddLine} (h : a.wf)
    (hlen : a.text.length < 100) :
    runners_write l cmd a.text a.text.length
      = some ⟨a.text.length, l ++ [a.runner],
          [Event.mutex_lock, Event.printk (added_record a.runner), Event.mutex_unlock]⟩ := by
  rw [runners_write_ok l cmd a.text (addLine_text_ne_zero h) hlen, scan_keyword_add]
  simp only [dispatch_add l h hlen]
  rfl

/-! ## Record rendering -/

theorem vsnprintf_cons_of_ne {c : Nat} (h : c ≠ 37) (fmt : List Nat) (args : List Arg) :
    vsnprintf (c :: fmt) args = c :: vsnprintf fmt args := by
  rw [vsnprintf]
  all_goals (intros; simp_all)

theorem vsnprintf_lit (p : List Nat) (hp : ∀ c ∈ p, c ≠ 37) (fmt : List Nat) (args : List Arg) :
    vsnprintf (p ++ fmt) args = p ++ vsnprintf fmt args := by
  induction p with
  | nil => rfl
  | cons c p ih =>
    rw [List.cons_append, vsnprintf_cons_of_ne (hp c (by simp)),
      ih (fun d hd => hp d (by simp [hd]))]
    rfl

theorem vsnprintf_d (v : Int) (fmt : List Nat) (args : List Arg) :
    vsnprintf (37 :: 100 :: fmt) (Arg.int v :: args) = number v 0 ++ vsnprintf fmt args := by
  rw [vsnprintf]

theorem vsnprintf_02d (v : Int) (fmt : List Nat) (args : List Arg) :
    vsnprintf (37 :: 48 :: 50 :: 100 :: fmt) (Arg.int v :: args)
      = number v 2 ++ vsnprintf fmt args := by
  rw [vsnprintf]

theorem vsnprintf_s (s fmt : List Nat) (args : List Arg) :
    vsnprintf (37 :: 115 :: fmt) (Arg.str s :: args) = s ++ vsnprintf fmt args := by
  rw [vsnprintf]

theorem record_format :
    bytes ("Lane: %d | Bib: %d | Name: %s | School: %s | "
        ++ "Qualifier Time: %d.%02d | Personal Record: %d.%02d\n")
      = bytes "Lane: " ++ (37 :: 100 :: (bytes " | Bib: " ++ (37 :: 100 :: (bytes " | Name: "
          ++ (37 :: 115 :: (bytes " | School: " ++ (37 :: 115 :: (bytes " | Qualifier Time: "
          ++ (37 :: 100 :: (bytes "." ++ (37 :: 48 :: 50 :: 100 :: (bytes " | Personal Record: "
          ++ (37 :: 100 :: (bytes "." ++ (37 :: 48 :: 50 :: 100 :: bytes "\n"))))))))))))))) := by
  decide

theorem vsnprintf_record (r : runner) :
    vsnprintf (bytes ("Lane: %d | Bib: %d | Name: %s | School: %s | "
        ++ "Qualifier Time: %d.%02d | Personal Record: %d.%02d\n")) (record_args r)
      = record_body r ++ bytes "\n" := by
  have h1 : ∀ c ∈ bytes "Lane: ", c ≠ 37 := by decide
  have h2 : ∀ c ∈ bytes " | Bib: ", c ≠ 37 := by decide
  have h3 : ∀ c ∈ bytes " | Name: ", c ≠ 37 := by decide
  have h4 : ∀ c ∈ bytes " | School: ", c ≠ 37 := by decide
  have h5 : ∀ c ∈ bytes " | Qualifier Time: ", c ≠ 37 := by decide
  have h6 : ∀ c ∈ bytes ".", c ≠ 37 := by decide
  have h7 : ∀ c ∈ bytes " | Personal Record: ", c ≠ 37 := by decide
  have h8 : vsnprintf (bytes "\n") [] = bytes "\n" := by decide
  rw [record_format, record_args, vsnprintf_lit _ h1, vsnprintf_d, vsnprintf_lit _ h2,
    vsnprintf_d, vsnprintf_lit _ h3, vsnprintf_s, vsnprintf_lit _ h4, vsnprintf_s,
    vsnprintf_lit _ h5, vsnprintf_d, vsnprintf_lit _ h6, vsnprintf_02d, vsnprintf_lit _ h7,
    vsnprintf_d, vsnprintf_lit _ h6, vsnprintf_02d, h8, record_body]
  simp only [List.append_assoc]

theorem added_record_eq (r : runner) :
    added_record r = bytes "[runners] Added Runner: " ++ record_body r ++ bytes "\n" := by
  have hf : bytes ("[runners] Added Runner: Lane: %d | Bib: %d | Name: %s | School: %s | "
      ++ "Qualifier Time: %d.%02d | Personal Record: %d.%02d\n")
      = bytes "[runners] Added Runner: "
        ++ bytes ("Lane: %d | Bib: %d | Name: %s | School: %s | "
          ++ "Qualifier Time: %d.%02d | Personal Record: %d.%02d\n") := by decide
  have hp : ∀ c ∈ bytes "[runners] Added Runner: ", c ≠ 37 := by decide
  rw [added_record, hf, vsnprintf_lit _ hp, vsnprintf_record, List.append_assoc]

theorem removed_record_eq (r : runner) :
    removed_record r = bytes "[runners] Removed Runner: " ++ record_body r ++ bytes "\n" := by
  have hf : bytes ("[runners] Removed Runner: Lane: %d | Bib: %d | Name: %s | School: %s | "
      ++ "Qualifier Time: %d.%02d | Personal Record: %d.%02d\n")
      = bytes "[runners] Removed Runner: "
        ++ bytes ("Lane: %d | Bib: %d | Name: %s | School: %s | "
          ++ "Qualifier Time: %d.%02d | Personal Record: %d.%02d\n") := by decide
  have hp : ∀ c ∈ bytes "[runners] Removed Runner: ", c ≠ 37 := by decide
  rw [removed_record, hf, vsnprintf_lit _ hp, vsnprintf_record, List.append_assoc]

theorem print_record_eq (r : runner) :
    print_record r = bytes "[runners] " ++ record_body r ++ bytes "\n" := by
  have hf : bytes ("[runners] Lane: %d | Bib: %d | Name: %s | School: %s | "
      ++ "Qualifier Time: %d.%02d | Personal Record: %d.%02d\n")
      = bytes "[runners] "
        ++ bytes ("Lane: %d | Bib: %d | Name: %s | School: %s | "
          ++ "Qualifier Time: %d.%02d | Personal Record: %d.%02d\n") := by decide
  have hp : ∀ c ∈ bytes "[runners] ", c ≠ 37 := by decide
  rw [print_record, hf, vsnprintf_lit _ hp, vsnprintf_record, List.append_assoc]

/-! ## `REMOVE` and `PRINT` lines -/

theorem remove_line_eq (t : IntLit) (w : List Nat) :
    remove_line t w = 82 :: 69 :: 77 :: 79 :: 86 :: 69 :: 32 :: (t.text ++ w) := by
  have h1 : bytes "REMOVE " = [82, 69, 77, 79, 86, 69, 32] := by decide
  simp only [remove_line, h1, List.append_assoc, List.cons_append, List.nil_append]

theorem remove_line_ne_zero {t : IntLit} (ht : t.wf) {w : List Nat} (hw : IsBlank w) :
    ∀ c ∈ remove_line t w, c ≠ 0 := by
  intro c hc
  rw [remove_line_eq] at hc
  simp only [List.mem_cons, List.mem_append] at hc
  rcases hc with hc | hc | hc | hc | hc | hc | hc | hc | hc
  any_goals omega
  · exact intLit_text_ne_zero ht c hc
  · exact isBlank_ne_zero hw c hc

theorem vsscanf_remove {t : IntLit} (ht : t.wf) {w : List Nat} (hw : IsBlank w) :
    vsscanf (remove_line t w) (bytes "REMOVE %d") = [Arg.int (to_int t.val)] := by
  have sp : isspace 32 = true := by decide
  rw [remove_line_eq, fmt_remove_eq]
  rw [vsscanf_literal (by decide) (by decide), vsscanf_literal (by decide) (by decide),
    vsscanf_literal (by decide) (by decide), vsscanf_literal (by decide) (by decide),
    vsscanf_literal (by decide) (by decide), vsscanf_literal (by decide) (by decide)]
  rw [vsscanf_space sp, skip_spaces_cons_of _ sp, skip_spaces_lit ht,
    vsscanf_d ht (noDigitHead_blank hw), vsscanf.eq_1]

theorem scan_keyword_remove (cmd : List Nat) (t : IntLit) (w : List Nat) :
    scan_keyword (remove_line t w) cmd = some (bytes "REMOVE") := by
  have hb : bytes "REMOVE" = [82, 69, 77, 79, 86, 69] := by decide
  have ht : IsToken [82, 69, 77, 79, 86, 69] := by decide
  have hs : isspace 32 = true := by decide
  have hk : overruns 16 [Arg.str [82, 69, 77, 79, 86, 69]] = false := by decide
  have h := vsscanf_s ht (spaceHead_cons (t.text ++ w) hs) []
  rw [vsscanf.eq_1] at h
  have h2 : vsscanf (remove_line t w) (bytes "%s") = [Arg.str [82, 69, 77, 79, 86, 69]] := by
    rw [remove_line_eq, fmt_s_eq]; exact h
  unfold scan_keyword
  simp only [h2, hk, Bool.false_eq_true, if_false, hb]

theorem runners_write_remove (l : List runner) (cmd : List Nat) {t : IntLit} (ht : t.wf)
    {w : List Nat} (hw : IsBlank w) (hlen : (remove_line t w).length < 100) :
    runners_write l cmd (remove_line t w) (remove_line t w).length
      = some ⟨(remove_line t w).length, (remove_loop (to_int t.val) l).1,
          [Event.mutex_lock] ++ (remove_loop (to_int t.val) l).2 ++ [Event.mutex_unlock]⟩ := by
  have hd : dispatch l (remove_line t w) (bytes "REMOVE")
      = some (remove_loop (to_int t.val) l) := by
    unfold dispatch
    simp only [keyword_add_ne.2.2.2, if_false, if_true, vsscanf_remove ht hw]
  rw [runners_write_ok l cmd _ (remove_line_ne_zero ht hw) hlen, scan_keyword_remove]
  simp only [hd]

theorem remove_loop_first (b : Int) (pre : List runner) (a : runner) (post : List runner)
    (hpre : ∀ p ∈ pre, p.bib_num ≠ b) (ha : a.bib_num = b) :
    remove_loop b (pre ++ a :: post) = (pre ++ post, [Event.printk (removed_record a)]) := by
  induction pre with
  | nil => simp [remove_loop, ha]
  | cons p pre ih =>
    have hp := hpre p (by simp)
    rw [List.cons_append, remove_loop, if_neg hp, ih (fun q hq => hpre q (by simp [hq]))]
    rfl

theorem remove_loop_absent (b : Int) (l : List runner) (h : ∀ p ∈ l, p.bib_num ≠ b) :
    remove_loop b l = (l, []) := by
  induction l with
  | nil => rfl
  | cons p l ih =>
    have hp := h p (by simp)
    rw [remove_loop, if_neg hp, ih (fun q hq => h q (by simp [hq]))]

theorem exists_first_bib (b : Int) (l : List runner) (h : ∃ x ∈ l, x.bib_num = b) :
    ∃ pre a post, l = pre ++ a :: post ∧ (∀ p ∈ pre, p.bib_num ≠ b) ∧ a.bib_num = b := by
  induction l with
  | nil => simp at h
  | cons x l ih =>
    by_cases hx : x.bib_num = b
    · exact ⟨[], x, l, rfl, by simp, hx⟩
    · obtain ⟨y, hy, hyb⟩ := h
      have hyl : y ∈ l := by
        rcases List.mem_cons.1 hy with rfl | hyl
        · exact absurd hyb hx
        · exact hyl
      obtain ⟨pre, a, post, rfl, hpre, ha⟩ := ih ⟨y, hyl, hyb⟩
      refine ⟨x :: pre, a, post, rfl, ?_, ha⟩
      intro p hp
      rcases List.mem_cons.1 hp with rfl | hp
      · exact hx
      · exact hpre p hp

theorem print_line_eq (w : List Nat) : print_line w = 80 :: 82 :: 73 :: 78 :: 84 :: w := by
  have h1 : bytes "PRINT" = [80, 82, 73, 78, 84] := by decide
  simp only [print_line, h1, List.cons_append, List.nil_append]

theorem print_line_ne_zero {w : List Nat} (hw : IsBlank w) : ∀ c ∈ print_line w, c ≠ 0 := by
  intro c hc
  rw [print_line_eq] at hc
  simp only [List.mem_cons] at hc
  rcases hc with hc | hc | hc | hc | hc | hc
  any_goals omega
  exact isBlank_ne_zero hw c hc

theorem scan_keyword_print (cmd : List Nat) {w : List Nat} (hw : IsBlank w) :
    scan_keyword (print_line w) cmd = some (bytes "PRINT") := by
  have hb : bytes "PRINT" = [80, 82, 73, 78, 84] := by decide
  have ht : IsToken [80, 82, 73, 78, 84] := by decide
  have hk : overruns 16 [Arg.str [80, 82, 73, 78, 84]] = false := by decide
  have h := vsscanf_s ht (spaceHead_blank hw) []
  rw [vsscanf.eq_1] at h
  have h2 : vsscanf (print_line w) (bytes "%s") = [Arg.str [80, 82, 73, 78, 84]] := by
    rw [print_line_eq, fmt_s_eq]; exact h
  unfold scan_keyword
  simp only [h2, hk, Bool.false_eq_true, if_false, hb]

theorem runners_write_print (l : List runner) (cmd : List Nat) {w : List Nat} (hw : IsBlank w)
    (hlen : (print_line w).length < 100) :
    runners_write l cmd (print_line w) (print_line w).length
      = some ⟨(print_line w).length, l, print_trace l⟩ := by
  have h1 : bytes "PRINT" ≠ bytes "ADD" := by decide
  have h2 : bytes "PRINT" ≠ bytes "REMOVE" := by decide
  have hd : dispatch l (print_line w) (bytes "PRINT")
      = some (l, [Event.printk (bytes "[runners] Printing entire list of runners:\n")]
          ++ print_loop l ++ [Event.printk (bytes "[runners] End of list.\n")]) := by
    unfold dispatch
    simp only [h1, h2, if_false, if_true]
  rw [runners_write_ok l cmd _ (print_line_ne_zero hw) hlen, scan_keyword_print cmd hw]
  simp only [hd, print_trace, print_loop, List.append_assoc, List.cons_append, List.nil_append]

/-! ## Sequences of writes -/

theorem run_cons (cmd : List Nat) (l : List runner) (p : List Nat) (ps : List (List Nat))
    (r : Result) (h : runners_write l cmd p p.length = some r) :
    run cmd l (p :: ps)
      = match run cmd r.list_of_runners ps with
        | none => none
        | some (l2, t) => some (l2, r.trace ++ t) := by
  rw [run, h]

theorem run_adds (cmd : List Nat) (l : List runner) (as : List AddLine)
    (h : ∀ a ∈ as, a.wf ∧ a.text.length < 100) (ps : List (List Nat)) :
    run cmd l (as.map AddLine.text ++ ps)
      = match run cmd (l ++ as.map AddLine.runner) ps with
        | none => none
        | some (l2, t) => some (l2, added_trace as ++ t) := by
  induction as generalizing l with
  | nil =>
    simp only [List.map_nil, List.nil_append, List.append_nil, added_trace]
    cases run cmd l ps with
    | none => rfl
    | some x => rfl
  | cons a as ih =>
    have ha := h a (by simp)
    rw [List.map_cons, List.cons_append,
      run_cons cmd l _ _ _ (runners_write_add l cmd ha.1 ha.2)]
    simp only [ih (l ++ [a.runner]) (fun b hb => h b (by simp [hb])), List.map_cons,
      List.append_assoc, List.singleton_append]
    cases run cmd (l ++ a.runner :: as.map AddLine.runner) ps with
    | none => rfl
    | some x => rfl

/-! ## Decimal writing -/

theorem digits_foldr (n : Nat) :
    ((Nat.digits 10 n).map (fun d => 48 + d)).foldr (fun c a => a * 10 + (c - 48)) 0 = n := by
  induction n using Nat.strong_induction_on with
  | _ n ih =>
    by_cases h0 : n = 0
    · subst h0; simp
    · rw [Nat.digits_def' (by norm_num) (Nat.pos_of_ne_zero h0)]
      simp only [List.map_cons, List.foldr_cons]
      rw [ih (n / 10) (Nat.div_lt_self (Nat.pos_of_ne_zero h0) (by norm_num))]
      omega

theorem decval_decimal (n : Nat) : decval (decimal n) = n := by
  unfold decimal decval
  by_cases h0 : n = 0
  · subst h0; simp
  · rw [if_neg h0, List.map_reverse, List.foldl_reverse]
    exact digits_foldr n

theorem decimal_wf (n : Nat) : IntLit.wf ⟨false, decimal n⟩ := by
  unfold IntLit.wf decimal
  by_cases h0 : n = 0
  · subst h0; simp only [if_true]; decide
  · simp only [if_neg h0]
    constructor
    · simp only [ne_eq, List.map_eq_nil_iff, List.reverse_eq_nil_iff]
      exact (Nat.digits_ne_nil_iff_ne_zero).2 h0
    · intro c hc
      simp only [List.mem_map, List.mem_reverse] at hc
      obtain ⟨d, hd, rfl⟩ := hc
      have := Nat.digits_lt_base (by norm_num : 1 < 10) hd
      rw [isdigit_iff]; omega

theorem two_digits_wf {h : Nat} (hh : h ≤ 99) : IntLit.wf ⟨false, two_digits h⟩ := by
  unfold IntLit.wf two_digits
  refine ⟨by simp, ?_⟩
  intro c hc
  simp only [List.mem_cons, List.mem_singleton, List.not_mem_nil, or_false] at hc
  rw [isdigit_iff]
  omega

theorem val_decimal (n : Nat) : IntLit.val ⟨false, decimal n⟩ = n := by
  simp [IntLit.val, decval_decimal]

theorem val_two_digits {h : Nat} (hh : h ≤ 99) : IntLit.val ⟨false, two_digits h⟩ = h := by
  simp only [IntLit.val, Bool.false_eq_true, if_false, two_digits, decval, List.foldl_cons,
    List.foldl_nil, Nat.cast_inj]
  omega

theorem put_dec_digits (fuel n : Nat) (h0 : 0 < n) (hn : n < 10 ^ fuel) :
    put_dec fuel n = (Nat.digits 10 n).map (fun d => 48 + d) := by
  induction fuel generalizing n with
  | zero => simp at hn; omega
  | succ fuel ih =>
    rw [put_dec, Nat.digits_def' (by norm_num) h0, List.map_cons]
    by_cases hq : n / 10 = 0
    · simp [hq]
    · rw [if_neg hq, ih (n / 10) (Nat.pos_of_ne_zero hq)]
      rw [pow_succ] at hn
      exact Nat.div_lt_of_lt_mul (by omega)

theorem number_nat (n : Nat) (hn : n < 10 ^ 20) : number (n : Int) 0 = decimal n := by
  unfold number decimal
  have hneg : ¬ ((n : Int) < 0) := by omega
  simp only [hneg, if_false, Int.natAbs_ofNat, List.length_nil, Nat.zero_sub, Nat.sub_zero,
    List.replicate_zero, List.nil_append, List.append_nil]
  by_cases h0 : n = 0
  · subst h0; decide
  · rw [if_neg h0, put_dec_digits 20 n (Nat.pos_of_ne_zero h0) hn, List.map_reverse]

theorem number_two_digits {h : Nat} (hh : h ≤ 99) : number (h : Int) 2 = two_digits h := by
  unfold number two_digits
  have hneg : ¬ ((h : Int) < 0) := by omega
  simp only [hneg, if_false, Int.natAbs_ofNat, List.length_nil, Nat.sub_zero, List.nil_append]
  by_cases h10 : h / 10 = 0
  · have : h % 10 = h := by omega
    simp [put_dec, h10, this]
  · have h2 : h / 10 / 10 = 0 := by omega
    have h3 : h / 10 % 10 = h / 10 := by omega
    simp [put_dec, h10, h2, h3]

theorem tdiv_encode (s h : Nat) (hh : h ≤ 99) :
    ((s * 100 + h : Nat) : Int).tdiv 100 = (s : Int)
      ∧ ((s * 100 + h : Nat) : Int).tmod 100 = (h : Int) := by
  have h1 : ((s * 100 + h : Nat) : Int).tdiv 100 = (((s * 100 + h) / 100 : Nat) : Int) := rfl
  have h2 : ((s * 100 + h : Nat) : Int).tmod 100 = (((s * 100 + h) % 100 : Nat) : Int) := rfl
  rw [h1, h2]
  constructor
  · congr 1; omega
  · congr 1; omega

/-! ## Stored strings are no longer than the input -/

theorem skip_spaces_length (str : List Nat) : (skip_spaces str).length ≤ str.length := by
  unfold skip_spaces
  exact (List.dropWhile_sublist _).length_le

theorem parse_integer_limit_length (s : List Nat) (res : Nat) :
    (parse_integer_limit s res).2.length ≤ s.length := by
  induction s generalizing res with
  | nil => simp [parse_integer_limit]
  | cons c s ih =>
    rw [parse_integer_limit]
    split
    · exact Nat.le_succ_of_le (ih _)
    · exact Nat.le_refl _

theorem simple_strntoll_length (cp : List Nat) : (simple_strntoll cp).2.length ≤ cp.length := by
  unfold simple_strntoll simple_strntoull
  split
  · have h := parse_integer_limit_length cp.tail 0
    have h2 : cp.tail.length ≤ cp.length := by simp
    exact Nat.le_trans h h2
  · exact parse_integer_limit_length cp 0

theorem overruns_cons_int (cap : Nat) (v : Int) (args : List Arg) :
    overruns cap (Arg.int v :: args) = overruns cap args := by
  simp [overruns]

theorem overruns_cons_str (cap : Nat) (s : List Nat) (args : List Arg) (h : s.length < cap) :
    overruns cap (Arg.str s :: args) = overruns cap args := by
  have : ¬ cap ≤ s.length := by omega
  simp [overruns, this]

theorem overruns_vsscanf (cap : Nat) (str fmt : List Nat) (h : str.length < cap) :
    overruns cap (vsscanf str fmt) = false := by
  induction str, fmt using vsscanf.induct with
  | case1 str => rw [vsscanf.eq_1]; rfl
  | case2 fmt => rw [vsscanf.eq_2]; rfl
  | case3 str fmt hne str1 ih =>
    have h1 : (skip_spaces str).length ≤ str.length := skip_spaces_length str
    have h2 : ((skip_spaces str).takeWhile (fun c => !isspace c)).length
        ≤ (skip_spaces str).length := (List.takeWhile_sublist _).length_le
    have h3 : ((skip_spaces str).dropWhile (fun c => !isspace c)).length
        ≤ (skip_spaces str).length := (List.dropWhile_sublist _).length_le
    rw [vsscanf.eq_2, if_neg hne]
    simp only []
    rw [overruns_cons_str _ _ _ (by omega)]
    exact ih (by simp only [str1]; omega)
  | case4 fmt => rw [vsscanf.eq_3]; rfl
  | case5 str fmt hne str1 digit hd =>
    simp only [str1, digit] at hd
    rw [vsscanf.eq_3, if_neg hne]
    simp only [hd]
    rfl
  | case6 str fmt hne str1 digit d hd hisd r ih =>
    simp only [str1, digit] at hd
    have h1 : (skip_spaces str).length ≤ str.length := skip_spaces_length str
    have h2 : (simple_strntoll (skip_spaces str)).2.length ≤ (skip_spaces str).length :=
      simple_strntoll_length _
    rw [vsscanf.eq_3, if_neg hne]
    simp only [hd, hisd, if_true]
    rw [overruns_cons_int]
    exact ih (by simp only [r, str1]; omega)
  | case7 str fmt hne str1 digit d hd hisd =>
    simp only [str1, digit] at hd
    rw [vsscanf.eq_3, if_neg hne]
    simp only [hd, hisd, if_false]
    rfl
  | case8 str tail h1 h2 => rw [vsscanf.eq_4 _ _ h1 h2]; rfl
  | case9 str c fmt h1 h2 h3 hsp ih =>
    rw [vsscanf_space hsp]
    exact ih (Nat.lt_of_le_of_lt (skip_spaces_length str) h)
  | case10 c fmt h1 h2 h3 hsp =>
    rw [vsscanf_other (fun hc => h3 hc), if_neg hsp]
    rfl
  | case11 fmt s str1 h1 h2 h3 hsp ih =>
    rw [vsscanf_other (fun hc => h3 hc), if_neg hsp]
    simp only [if_true]
    exact ih (by simp only [List.length_cons] at h; omega)
  | case12 c fmt h1 h2 h3 hsp s str1 hne =>
    rw [vsscanf_other (fun hc => h3 hc), if_neg hsp]
    simp only [hne, if_false]
    rfl

/-! ## Accepted payloads -/

theorem cstr_length (b : List Nat) : (cstr b).length ≤ b.length := by
  unfold cstr
  exact (List.takeWhile_sublist _).length_le

theorem scan_keyword_eq (kernel_buffer cmd : List Nat) :
    scan_keyword kernel_buffer cmd
      = if kernel_buffer = [] then some cmd
        else if 16 ≤ (keyword kernel_buffer).length then none
        else some (keyword kernel_buffer) := by
  by_cases h : kernel_buffer = []
  · subst h
    rw [if_pos rfl]
    rfl
  · have hv : vsscanf kernel_buffer (bytes "%s") = [Arg.str (keyword kernel_buffer)] := by
      rw [fmt_s_eq, vsscanf.eq_2, if_neg h]
      simp only [vsscanf.eq_1, keyword]
    unfold scan_keyword
    rw [hv, if_neg h]
    by_cases h16 : 16 ≤ (keyword kernel_buffer).length
    · simp [overruns, h16]
    · simp [overruns, h16]

theorem dispatch_defined (l : List runner) (kernel_buffer cmd : List Nat)
    (h : kernel_buffer.length < 100) :
    ∃ l2 events, dispatch l kernel_buffer cmd = some (l2, events) := by
  have ho := overruns_vsscanf LEN_NAME kernel_buffer (bytes "ADD %d %d %s %s %d.%d %d.%d") h
  unfold dispatch
  simp only [ho, Bool.false_eq_true, if_false]
  split
  · split
    · exact ⟨_, _, rfl⟩
    · exact ⟨_, _, rfl⟩
  · split
    · split
      · exact ⟨_, _, rfl⟩
      · exact ⟨_, _, rfl⟩
    · split
      · exact ⟨_, _, rfl⟩
      · exact ⟨_, _, rfl⟩

theorem dispatch_unknown (l : List runner) (kernel_buffer cmd : List Nat)
    (h1 : cmd ≠ bytes "ADD") (h2 : cmd ≠ bytes "REMOVE") (h3 : cmd ≠ bytes "PRINT") :
    dispatch l kernel_buffer cmd = some (l, []) := by
  unfold dispatch
  rw [if_neg h1, if_neg h2, if_neg h3]

theorem runners_write_defined (l : List runner) (cmd buf : List Nat) (len : Nat)
    (hlen : len < 100) (hcopy : len ≤ buf.length) (k : List Nat)
    (hk : scan_keyword (cstr (buf.take len)) cmd = some k) :
    ∃ l2 events, dispatch l (cstr (buf.take len)) k = some (l2, events)
      ∧ runners_write l cmd buf len
        = some ⟨len, l2, [Event.mutex_lock] ++ events ++ [Event.mutex_unlock]⟩ := by
  have h100 : ¬ 100 ≤ len := by omega
  have hc : ¬ buf.length < len := by omega
  have hkb : (cstr (buf.take len)).length < 100 := by
    have h1 := cstr_length (buf.take len)
    have h2 : (buf.take len).length ≤ len := by simp
    omega
  obtain ⟨l2, ev, hd⟩ := dispatch_defined l (cstr (buf.take len)) k hkb
  refine ⟨l2, ev, hd, ?_⟩
  unfold runners_write
  rw [if_neg h100, if_neg hc]
  simp only [hk, hd]

/-- A write of fewer than 100 readable bytes whose keyword, if any, has at most
15 bytes runs to its `return` and returns `len`. -/
theorem runners_write_returns_len (l : List runner) (cmd buf : List Nat) (len : Nat)
    (hlen : len < 100) (hcopy : len ≤ buf.length)
    (hfit : (keyword (cstr (buf.take len))).length ≤ 15) :
    ∃ r : Result, runners_write l cmd buf len = some r ∧ r.ret = len := by
  have h16 : ¬ 16 ≤ (keyword (cstr (buf.take len))).length := by omega
  have hk : ∃ k, scan_keyword (cstr (buf.take len)) cmd = some k := by
    rw [scan_keyword_eq]
    by_cases h : cstr (buf.take len) = []
    · exact ⟨cmd, by rw [if_pos h]⟩
    · exact ⟨_, by rw [if_neg h, if_neg h16]⟩
  obtain ⟨k, hk⟩ := hk
  obtain ⟨l2, ev, _, hw⟩ := runners_write_defined l cmd buf len hlen hcopy k hk
  exact ⟨_, hw, rfl⟩

/-- A write of fewer than 100 readable bytes whose keyword has at most 15 bytes
and is none of `ADD`, `REMOVE`, `PRINT` is dropped: the roster is unchanged, no
record is logged and `len` is returned. -/
theorem unknown_keyword_dropped (l : List runner) (cmd buf : List Nat) (len : Nat)
    (hlen : len < 100) (hcopy : len ≤ buf.length)
    (hne : cstr (buf.take len) ≠ [])
    (hfit : (keyword (cstr (buf.take len))).length ≤ 15)
    (h1 : keyword (cstr (buf.take len)) ≠ bytes "ADD")
    (h2 : keyword (cstr (buf.take len)) ≠ bytes "REMOVE")
    (h3 : keyword (cstr (buf.take len)) ≠ bytes "PRINT") :
    runners_write l cmd buf len
      = some ⟨len, l, [Event.mutex_lock, Event.mutex_unlock]⟩ := by
  have h16 : ¬ 16 ≤ (keyword (cstr (buf.take len))).length := by omega
  have hk : scan_keyword (cstr (buf.take len)) cmd = some (keyword (cstr (buf.take len))) := by
    rw [scan_keyword_eq, if_neg hne, if_neg h16]
  obtain ⟨l2, ev, hd, hw⟩ := runners_write_defined l cmd buf len hlen hcopy _ hk
  rw [dispatch_unknown _ _ _ h1 h2 h3] at hd
  cases hd
  exact hw

/-- The keyword scan overruns `cmd` exactly when the line is not empty and its
first token has 16 bytes or more. -/
theorem scan_keyword_overrun (kernel_buffer cmd : List Nat) :
    scan_keyword kernel_buffer cmd = none
      ↔ kernel_buffer ≠ [] ∧ 16 ≤ (keyword kernel_buffer).length := by
  rw [scan_keyword_eq]
  by_cases h : kernel_buffer = []
  · simp [h]
  · by_cases h16 : 16 ≤ (keyword kernel_buffer).length
    · simp [h, h16]
    · simp [h, h16]

/-! ## The claims -/

/-- C1 (append order).  A well-formed `ADD` line of fewer than 100 bytes leaves
the roster as it was with exactly one new runner at the tail, carrying the
parsed lane, bib, name, school and the two encoded times, and logs that runner;
hence N well-formed `ADD` lines written to an empty roster followed by a `PRINT`
list the N runners in submission order. -/
theorem add_appends_at_tail (l : List runner) (cmd : List Nat) (a : AddLine)
    (as : List AddLine) (w : List Nat)
    (ha : a.wf) (hlen : a.text.length < 100)
    (has : ∀ b ∈ as, b.wf ∧ b.text.length < 100)
    (hw : IsBlank w) (hwlen : (print_line w).length < 100) :
    runners_write l cmd a.text a.text.length
        = some ⟨a.text.length, l ++ [a.runner],
            [Event.mutex_lock, Event.printk (added_record a.runner), Event.mutex_unlock]⟩
      ∧ run cmd [] (as.map AddLine.text ++ [print_line w])
        = some (as.map AddLine.runner,
            added_trace as ++ print_trace (as.map AddLine.runner)) := by
  refine ⟨runners_write_add l cmd ha hlen, ?_⟩
  rw [run_adds cmd [] as has, List.nil_append,
    run_cons cmd _ _ _ _ (runners_write_print (as.map AddLine.runner) cmd hw hwlen)]
  simp [run]

/-- Witness of C1: `ana` is appended behind the runner of `cy`, and the three
example lines followed by `PRINT` are listed in the order written. -/
theorem add_appends_at_tail_witness :
    ana.text = bytes "ADD 3 101 Ana Lincoln 12.34 11.00"
      ∧ ana.runner = ⟨3, 101, bytes "Ana", bytes "Lincoln", 1234, 1100⟩
      ∧ (runners_write [cy.runner] [] ana.text ana.text.length
          = some ⟨ana.text.length, [cy.runner] ++ [ana.runner],
              [Event.mutex_lock, Event.printk (added_record ana.runner), Event.mutex_unlock]⟩
        ∧ run [] [] ([ana, ben, cy].map AddLine.text ++ [print_line [10]])
          = some ([ana, ben, cy].map AddLine.runner,
              added_trace [ana, ben, cy] ++ print_trace ([ana, ben, cy].map AddLine.runner))) :=
  ⟨by decide, by decide,
    add_appends_at_tail [cy.runner] [] ana [ana, ben, cy] [10] (by decide) (by decide)
      (by decide) (by decide) (by decide)⟩

/-- C2 (first-match removal).  When some runner carries the bib written on a
`REMOVE` line, the call deletes exactly the first such runner in roster order,
keeps every other runner (later runners with the same bib included) in unchanged
order, and emits one `Removed Runner` record with the fields of the deleted
runner; with two runners A then B of equal bib, A is removed and B remains. -/
theorem remove_first_match (l : List runner) (cmd : List Nat) (t : IntLit) (w : List Nat)
    (ht : t.wf) (hw : IsBlank w) (hlen : (remove_line t w).length < 100)
    (h : ∃ x ∈ l, x.bib_num = to_int t.val) :
    (∃ pre a post, l = pre ++ a :: post ∧ (∀ p ∈ pre, p.bib_num ≠ to_int t.val)
        ∧ a.bib_num = to_int t.val
        ∧ runners_write l cmd (remove_line t w) (remove_line t w).length
          = some ⟨(remove_line t w).length, pre ++ post,
              [Event.mutex_lock, Event.printk (removed_record a), Event.mutex_unlock]⟩)
      ∧ ∀ A B : runner, A.bib_num = to_int t.val → B.bib_num = to_int t.val →
          runners_write [A, B] cmd (remove_line t w) (remove_line t w).length
            = some ⟨(remove_line t w).length, [B],
                [Event.mutex_lock, Event.printk (removed_record A), Event.mutex_unlock]⟩ := by
  constructor
  · obtain ⟨pre, a, post, rfl, hpre, ha⟩ := exists_first_bib _ l h
    refine ⟨pre, a, post, rfl, hpre, ha, ?_⟩
    rw [runners_write_remove _ cmd ht hw hlen, remove_loop_first _ pre a post hpre ha]
    rfl
  · intro A B hA _
    have hr := remove_loop_first (to_int t.val) [] A [B] (by simp) hA
    rw [List.nil_append] at hr
    rw [runners_write_remove _ cmd ht hw hlen, hr]
    rfl

/-- Witness of C2: `REMOVE 101` on the roster of `ana`, `cy`, `ben`, where `ana`
and `ben` both carry bib 101. -/
theorem remove_first_match_witness :
    remove_line ⟨false, bytes "101"⟩ [10] = bytes "REMOVE 101\n"
      ∧ (∃ x ∈ [ana.runner, cy.runner, ben.runner],
          x.bib_num = to_int (IntLit.val ⟨false, bytes "101"⟩))
      ∧ ((∃ pre a post, [ana.runner, cy.runner, ben.runner] = pre ++ a :: post
            ∧ (∀ p ∈ pre, p.bib_num ≠ to_int (IntLit.val ⟨false, bytes "101"⟩))
            ∧ a.bib_num = to_int (IntLit.val ⟨false, bytes "101"⟩)
            ∧ runners_write [ana.runner, cy.runner, ben.runner] []
                (remove_line ⟨false, bytes "101"⟩ [10])
                (remove_line ⟨false, bytes "101"⟩ [10]).length
              = some ⟨(remove_line ⟨false, bytes "101"⟩ [10]).length, pre ++ post,
                  [Event.mutex_lock, Event.printk (removed_record a), Event.mutex_unlock]⟩)
        ∧ ∀ A B : runner, A.bib_num = to_int (IntLit.val ⟨false, bytes "101"⟩) →
            B.bib_num = to_int (IntLit.val ⟨false, bytes "101"⟩) →
            runners_write [A, B] [] (remove_line ⟨false, bytes "101"⟩ [10])
                (remove_line ⟨false, bytes "101"⟩ [10]).length
              = some ⟨(remove_line ⟨false, bytes "101"⟩ [10]).length, [B],
                  [Event.mutex_lock, Event.printk (removed_record A), Event.mutex_unlock]⟩) :=
  ⟨by decide, ⟨ana.runner, by decide, by decide⟩,
    remove_first_match [ana.runner, cy.runner, ben.runner] [] ⟨false, bytes "101"⟩ [10]
      (by decide) (by decide) (by decide) ⟨ana.runner, by decide, by decide⟩⟩

/-- C3 (removal of an absent bib).  When no runner of the roster carries the bib
written on a `REMOVE` line (the empty roster included), the call leaves the
roster exactly unchanged and emits no log record: its trace is the lock and the
unlock only. -/
theorem remove_absent_is_noop (l : List runner) (cmd : List Nat) (t : IntLit) (w : List Nat)
    (ht : t.wf) (hw : IsBlank w) (hlen : (remove_line t w).length < 100)
    (h : ∀ x ∈ l, x.bib_num ≠ to_int t.val) :
    runners_write l cmd (remove_line t w) (remove_line t w).length
        = some ⟨(remove_line t w).length, l, [Event.mutex_lock, Event.mutex_unlock]⟩
      ∧ Result.log ⟨(remove_line t w).length, l, [Event.mutex_lock, Event.mutex_unlock]⟩ = [] := by
  refine ⟨?_, rfl⟩
  rw [runners_write_remove _ cmd ht hw hlen, remove_loop_absent _ l h]
  rfl

/-- Witness of C3: `REMOVE 404` on the empty roster. -/
theorem remove_absent_is_noop_witness :
    remove_line ⟨false, bytes "404"⟩ [] = bytes "REMOVE 404"
      ∧ (runners_write [] [] (remove_line ⟨false, bytes "404"⟩ [])
            (remove_line ⟨false, bytes "404"⟩ []).length
          = some ⟨(remove_line ⟨false, bytes "404"⟩ []).length, [],
              [Event.mutex_lock, Event.mutex_unlock]⟩
        ∧ Result.log ⟨(remove_line ⟨false, bytes "404"⟩ []).length, [],
              [Event.mutex_lock, Event.mutex_unlock]⟩ = []) :=
  ⟨by decide,
    remove_absent_is_noop [] [] ⟨false, bytes "404"⟩ [] (by decide) (by decide) (by decide)
      (by simp)⟩

/-- C4 (bounds rejection).  A write of 100 bytes or more returns `-EINVAL`
whatever the user memory holds or whether it is readable at all, leaves the
roster unchanged and has an empty trace: nothing is copied, scanned, locked or
logged. -/
theorem write_at_capacity_rejected (l : List runner) (cmd buf : List Nat) (len : Nat)
    (h : 100 ≤ len) :
    runners_write l cmd buf len = some ⟨-EINVAL, l, []⟩ := by
  unfold runners_write
  rw [if_pos h]

/-- Witness of C4: a payload of exactly 100 bytes that spells a `PRINT`. -/
theorem write_at_capacity_rejected_witness :
    (print_line (List.replicate 95 32)).length = 100
      ∧ runners_write [ana.runner] [] (print_line (List.replicate 95 32)) 100
        = some ⟨-EINVAL, [ana.runner], []⟩ :=
  ⟨by decide,
    write_at_capacity_rejected [ana.runner] [] (print_line (List.replicate 95 32)) 100
      (by decide)⟩

/-- C5 (fixed-point round trip).  For seconds `s` and hundredths `h ≤ 99` with
`s * 100 + h` in the range of `int`, an `ADD` line whose time field reads `s.hh`
(hundredths written with exactly two digits) stores the integer `s * 100 + h`,
and the record logged for the runner shows the field as `s.hh` again; this holds
for the qualifier time and for the personal record. -/
theorem fixed_point_round_trip (l : List runner) (cmd : List Nat) (lane bib : IntLit)
    (name school w : List Nat) (s1 h1 s2 h2 : Nat)
    (hlane : lane.wf) (hbib : bib.wf) (hname : IsToken name) (hschool : IsToken school)
    (hw : IsBlank w) (hh1 : h1 ≤ 99) (hh2 : h2 ≤ 99)
    (hr1 : s1 * 100 + h1 < 2 ^ 31) (hr2 : s2 * 100 + h2 < 2 ^ 31)
    (hlen : (timed_line lane bib name school s1 h1 s2 h2 w).text.length < 100) :
    runners_write l cmd (timed_line lane bib name school s1 h1 s2 h2 w).text
        (timed_line lane bib name school s1 h1 s2 h2 w).text.length
      = some ⟨(timed_line lane bib name school s1 h1 s2 h2 w).text.length,
          l ++ [⟨to_int lane.val, to_int bib.val, name, school,
                  ((s1 * 100 + h1 : Nat) : Int), ((s2 * 100 + h2 : Nat) : Int)⟩],
          [Event.mutex_lock,
            Event.printk (bytes "[runners] Added Runner: Lane: " ++ number (to_int lane.val) 0
              ++ bytes " | Bib: " ++ number (to_int bib.val) 0
              ++ bytes " | Name: " ++ name ++ bytes " | School: " ++ school
              ++ bytes " | Qualifier Time: " ++ decimal s1 ++ bytes "." ++ two_digits h1
              ++ bytes " | Personal Record: " ++ decimal s2 ++ bytes "." ++ two_digits h2
              ++ bytes "\n"),
            Event.mutex_unlock]⟩ := by
  have hwf : (timed_line lane bib name school s1 h1 s2 h2 w).wf :=
    ⟨hlane, hbib, hname, hschool, decimal_wf s1, two_digits_wf hh1, decimal_wf s2,
      two_digits_wf hh2, hw⟩
  have hq : to_int ((s1 : Int) * 100 + (h1 : Int)) = ((s1 * 100 + h1 : Nat) : Int) := by
    rw [to_int_of_range] <;> push_cast <;> norm_num at hr1 ⊢ <;> omega
  have hp : to_int ((s2 : Int) * 100 + (h2 : Int)) = ((s2 * 100 + h2 : Nat) : Int) := by
    rw [to_int_of_range] <;> push_cast <;> norm_num at hr2 ⊢ <;> omega
  have hrun : (timed_line lane bib name school s1 h1 s2 h2 w).runner
      = ⟨to_int lane.val, to_int bib.val, name, school,
          ((s1 * 100 + h1 : Nat) : Int), ((s2 * 100 + h2 : Nat) : Int)⟩ := by
    simp only [AddLine.runner, timed_line, val_decimal, val_two_digits hh1, val_two_digits hh2,
      hq, hp]
  have hs1 : s1 < 10 ^ 20 := by norm_num at hr1 ⊢; omega
  have hs2 : s2 < 10 ^ 20 := by norm_num at hr2 ⊢; omega
  have hpre : bytes "[runners] Added Runner: Lane: "
      = bytes "[runners] Added Runner: " ++ bytes "Lane: " := by decide
  rw [runners_write_add l cmd hwf hlen, hrun, added_record_eq, record_body, hpre]
  simp only [(tdiv_encode s1 h1 hh1).1, (tdiv_encode s1 h1 hh1).2, (tdiv_encode s2 h2 hh2).1,
    (tdiv_encode s2 h2 hh2).2, number_nat s1 hs1, number_nat s2 hs2, number_two_digits hh1,
    number_two_digits hh2, List.append_assoc]

/-- Witness of C5: `ADD 3 101 Ana Lincoln 10.01 9.99` stores qualifier 1001 and
record 999 and logs them as `10.01` and `9.99`. -/
theorem fixed_point_round_trip_witness :
    (timed_line ⟨false, bytes "3"⟩ ⟨false, bytes "101"⟩ (bytes "Ana") (bytes "Lincoln")
        10 1 9 99 []).text = bytes "ADD 3 101 Ana Lincoln 10.01 9.99"
      ∧ runners_write [] []
          (timed_line ⟨false, bytes "3"⟩ ⟨false, bytes "101"⟩ (bytes "Ana") (bytes "Lincoln")
            10 1 9 99 []).text
          (timed_line ⟨false, bytes "3"⟩ ⟨false, bytes "101"⟩ (bytes "Ana") (bytes "Lincoln")
            10 1 9 99 []).text.length
        = some ⟨(timed_line ⟨false, bytes "3"⟩ ⟨false, bytes "101"⟩ (bytes "Ana")
              (bytes "Lincoln") 10 1 9 99 []).text.length,
            [] ++ [⟨to_int (IntLit.val ⟨false, bytes "3"⟩),
                    to_int (IntLit.val ⟨false, bytes "101"⟩), bytes "Ana", bytes "Lincoln",
                    ((10 * 100 + 1 : Nat) : Int), ((9 * 100 + 99 : Nat) : Int)⟩],
            [Event.mutex_lock,
              Event.printk (bytes "[runners] Added Runner: Lane: "
                ++ number (to_int (IntLit.val ⟨false, bytes "3"⟩)) 0
                ++ bytes " | Bib: " ++ number (to_int (IntLit.val ⟨false, bytes "101"⟩)) 0
                ++ bytes " | Name: " ++ bytes "Ana" ++ bytes " | School: " ++ bytes "Lincoln"
                ++ bytes " | Qualifier Time: " ++ decimal 10 ++ bytes "." ++ two_digits 1
                ++ bytes " | Personal Record: " ++ decimal 9 ++ bytes "." ++ two_digits 99
                ++ bytes "\n"),
              Event.mutex_unlock]⟩ := by
  have h10 : decimal 10 = [49, 48] := by simp [decimal]
  have h9 : decimal 9 = [57] := by simp [decimal]
  have htext : (timed_line ⟨false, bytes "3"⟩ ⟨false, bytes "101"⟩ (bytes "Ana")
      (bytes "Lincoln") 10 1 9 99 []).text = bytes "ADD 3 101 Ana Lincoln 10.01 9.99" := by
    simp only [timed_line, AddLine.text, IntLit.text, h10, h9]
    decide
  refine ⟨htext, ?_⟩
  exact fixed_point_round_trip [] [] ⟨false, bytes "3"⟩ ⟨false, bytes "101"⟩ (bytes "Ana")
    (bytes "Lincoln") [] 10 1 9 99 (by decide) (by decide) (by decide) (by decide) (by decide)
    (by decide) (by decide) (by decide) (by decide) (by rw [htext]; decide)

/-- C6 (silent drop) at a payload whose keyword is longer than `cmd`: the line
`REGISTER_NEW_RUNNER 3 101` with its newline, as the reference client sends it,
has 26 bytes and its first token, which is none of `ADD`, `REMOVE`, `PRINT`, has
19; the keyword scan stores 20 bytes into the 16-byte array `cmd`, so the call
does not reach its `return`. -/
theorem unknown_long_keyword_overruns_cmd :
    (bytes "REGISTER_NEW_RUNNER 3 101\n").length = 26
      ∧ keyword (cstr (bytes "REGISTER_NEW_RUNNER 3 101\n")) = bytes "REGISTER_NEW_RUNNER"
      ∧ (bytes "REGISTER_NEW_RUNNER").length = 19
      ∧ runners_write [] [] (bytes "REGISTER_NEW_RUNNER 3 101\n") 26 = none := by
  decide

/-- C7 (print).  On a roster of n runners a `PRINT` line emits exactly n + 2 log
records: the start marker, one record per runner in roster order, the end
marker; and it leaves the roster unchanged. -/
theorem print_lists_roster_in_order (l : List runner) (cmd w : List Nat) (hw : IsBlank w)
    (hlen : (print_line w).length < 100) :
    ∃ r : Result, runners_write l cmd (print_line w) (print_line w).length = some r
      ∧ r.list_of_runners = l
      ∧ r.log = [bytes "[runners] Printing entire list of runners:\n"]
          ++ l.map print_record ++ [bytes "[runners] End of list.\n"]
      ∧ r.log.length = l.length + 2 := by
  have hlog : Result.log ⟨(print_line w).length, l, print_trace l⟩
      = [bytes "[runners] Printing entire list of runners:\n"]
          ++ l.map print_record ++ [bytes "[runners] End of list.\n"] := by
    have hmap : ∀ rs : List runner,
        (rs.map (fun r => Event.printk (print_record r))).filterMap
          (fun e => match e with
            | Event.printk line => some line
            | _ => none) = rs.map print_record := by
      intro rs
      induction rs with
      | nil => rfl
      | cons r rs ih => rw [List.map_cons, List.filterMap_cons, ih]; rfl
    simp only [Result.log, print_trace, List.filterMap_append, hmap]
    rfl
  refine ⟨_, runners_write_print l cmd hw hlen, rfl, hlog, ?_⟩
  rw [hlog]
  simp

/-- Witness of C7: `PRINT` with a newline on the roster of `ana`, `cy`. -/
theorem print_lists_roster_in_order_witness :
    print_line [10] = bytes "PRINT\n"
      ∧ ∃ r : Result,
          runners_write [ana.runner, cy.runner] [] (print_line [10]) (print_line [10]).length
            = some r
          ∧ r.list_of_runners = [ana.runner, cy.runner]
          ∧ r.log = [bytes "[runners] Printing entire list of runners:\n"]
              ++ [ana.runner, cy.runner].map print_record ++ [bytes "[runners] End of list.\n"]
          ∧ r.log.length = [ana.runner, cy.runner].length + 2 :=
  ⟨by decide,
    print_lists_roster_in_order [ana.runner, cy.runner] [] [10] (by decide) (by decide)⟩

/-- C8 (bytes accepted) at a payload whose keyword is longer than `cmd`: the
22-byte line `PRINT_ALL_RUNNERS_NOW` with its newline passes the length check and
is copied, its 21-byte first token and terminator are stored into the 16-byte
array `cmd`, and the call does not return 22. -/
theorem long_keyword_write_does_not_return_len :
    (bytes "PRINT_ALL_RUNNERS_NOW\n").length = 22
      ∧ (keyword (cstr (bytes "PRINT_ALL_RUNNERS_NOW\n"))).length = 21
      ∧ runners_write [ana.runner] [] (bytes "PRINT_ALL_RUNNERS_NOW\n") 22 = none
      ∧ ¬ ∃ r : Result,
          runners_write [ana.runner] [] (bytes "PRINT_ALL_RUNNERS_NOW\n") 22 = some r
            ∧ r.ret = 22 := by
  have h : runners_write [ana.runner] [] (bytes "PRINT_ALL_RUNNERS_NOW\n") 22 = none := by
    decide
  refine ⟨by decide, by decide, h, ?_⟩
  rintro ⟨r, hr, _⟩
  rw [h] at hr
  cases hr

/-- C9 (add then remove).  On a roster with no runner of bib b, a well-formed
`ADD` with bib b followed by `REMOVE b` leaves the roster as it was; and on the
empty roster `ADD 3 101 Ana Lincoln 12.34 11.00` then `PRINT` emits exactly one
record (lane 3, bib 101, qualifier 12.34, record 11.00), and after `REMOVE 101` a
second `PRINT` emits no record between its two markers. -/
theorem add_then_remove_round_trip (l : List runner) (cmd : List Nat) (a : AddLine)
    (t : IntLit) (w : List Nat)
    (ha : a.wf) (hlen : a.text.length < 100)
    (ht : t.wf) (hw : IsBlank w) (hrlen : (remove_line t w).length < 100)
    (hbib : to_int t.val = to_int a.bib.val)
    (hfresh : ∀ x ∈ l, x.bib_num ≠ to_int a.bib.val) :
    run cmd l [a.text, remove_line t w]
        = some (l,
            [Event.mutex_lock, Event.printk (added_record a.runner), Event.mutex_unlock,
              Event.mutex_lock, Event.printk (removed_record a.runner), Event.mutex_unlock])
      ∧ run [] [] [bytes "ADD 3 101 Ana Lincoln 12.34 11.00", bytes "PRINT",
            bytes "REMOVE 101", bytes "PRINT"]
        = some ([],
            [Event.mutex_lock,
              Event.printk (bytes ("[runners] Added Runner: Lane: 3 | Bib: 101 | Name: Ana | "
                ++ "School: Lincoln | Qualifier Time: 12.34 | Personal Record: 11.00\n")),
              Event.mutex_unlock,
              Event.mutex_lock,
              Event.printk (bytes "[runners] Printing entire list of runners:\n"),
              Event.printk (bytes ("[runners] Lane: 3 | Bib: 101 | Name: Ana | "
                ++ "School: Lincoln | Qualifier Time: 12.34 | Personal Record: 11.00\n")),
              Event.printk (bytes "[runners] End of list.\n"),
              Event.mutex_unlock,
              Event.mutex_lock,
              Event.printk (bytes ("[runners] Removed Runner: Lane: 3 | Bib: 101 | Name: Ana | "
                ++ "School: Lincoln | Qualifier Time: 12.34 | Personal Record: 11.00\n")),
              Event.mutex_unlock,
              Event.mutex_lock,
              Event.printk (bytes "[runners] Printing entire list of runners:\n"),
              Event.printk (bytes "[runners] End of list.\n"),
              Event.mutex_unlock]) := by
  constructor
  · have hrm : remove_loop (to_int t.val) (l ++ [a.runner])
        = (l, [Event.printk (removed_record a.runner)]) := by
      have h := remove_loop_first (to_int t.val) l a.runner []
        (fun p hp => by rw [hbib]; exact hfresh p hp) (by rw [hbib]; rfl)
      rw [List.append_nil] at h
      exact h
    rw [run_cons cmd l _ _ _ (runners_write_add l cmd ha hlen)]
    simp only []
    rw [run_cons cmd _ _ _ _ (runners_write_remove (l ++ [a.runner]) cmd ht hw hrlen)]
    simp only [hrm, run]
    rfl
  · decide

/-- Witness of C9: `ana` added to the roster of `cy` and removed again by
`REMOVE 101`. -/
theorem add_then_remove_round_trip_witness :
    run [] [cy.runner] [ana.text, remove_line ⟨false, bytes "101"⟩ [10]]
        = some ([cy.runner],
            [Event.mutex_lock, Event.printk (added_record ana.runner), Event.mutex_unlock,
              Event.mutex_lock, Event.printk (removed_record ana.runner), Event.mutex_unlock]) :=
  (add_then_remove_round_trip [cy.runner] [] ana ⟨false, bytes "101"⟩ [10] (by decide)
    (by decide) (by decide) (by decide) (by decide) (by decide) (by decide)).1

/-- The three records of a runner are their prefix, the body `record_body` and a
newline. -/
theorem records_share_body (r : runner) :
    added_record r = bytes "[runners] Added Runner: " ++ record_body r ++ bytes "\n"
      ∧ removed_record r = bytes "[runners] Removed Runner: " ++ record_body r ++ bytes "\n"
      ∧ print_record r = bytes "[runners] " ++ record_body r ++ bytes "\n" :=
  ⟨added_record_eq r, removed_record_eq r, print_record_eq r⟩

/-! ## Further lemmas on accepted payloads -/

theorem dispatch_events_printk (l : List runner) (kernel_buffer cmd : List Nat)
    (l2 : List runner) (events : List Event)
    (h : dispatch l kernel_buffer cmd = some (l2, events)) :
    ∀ e ∈ events, ∃ line, e = Event.printk line := by
  have hrem : ∀ (b : Int) (rs : List runner),
      ∀ e ∈ (remove_loop b rs).2, ∃ line, e = Event.printk line := by
    intro b rs
    induction rs with
    | nil => intro e he; simp [remove_loop] at he
    | cons x rs ih =>
      intro e he
      rw [remove_loop] at he
      split at he
      · simp only [List.mem_singleton] at he
        exact ⟨_, he⟩
      · exact ih e he
  unfold dispatch at h
  split at h
  · simp only [] at h
    split at h
    · cases h
    · split at h
      · cases h
        intro e he
        simp only [List.mem_singleton] at he
        exact ⟨_, he⟩
      · cases h
        intro e he
        simp at he
  · split at h
    · split at h
      · have h2 := congrArg Prod.snd (Option.some.inj h)
        simp only [] at h2
        rw [← h2]
        exact hrem _ _
      · cases h
        intro e he
        simp at he
    · split at h
      · cases h
        intro e he
        simp only [print_loop, List.mem_append, List.mem_singleton, List.mem_map] at he
        rcases he with (he | ⟨r, _, he⟩) | he
        · exact ⟨_, he⟩
        · exact ⟨_, he.symm⟩
        · exact ⟨_, he⟩
      · cases h
        intro e he
        simp at he

theorem runners_write_overrun (l : List runner) (cmd buf : List Nat) (len : Nat)
    (hlen : len < 100) (hcopy : len ≤ buf.length)
    (h : scan_keyword (cstr (buf.take len)) cmd = none) :
    runners_write l cmd buf len = none := by
  have h100 : ¬ 100 ≤ len := by omega
  have hc : ¬ buf.length < len := by omega
  unfold runners_write
  rw [if_neg h100, if_neg hc]
  simp only [h]

/-! ## Lines with trailing input -/

theorem noDigitHead_of_spaceHead {x : List Nat} (h : SpaceHead x) : NoDigitHead x := by
  intro c hc
  have hs := h c hc
  cases hd : isdigit c with
  | false => rfl
  | true => rw [isspace_false_of_isdigit hd] at hs; cases hs

theorem vsscanf_add_fields {a : AddLine} (h : a.fields_wf) (ht : NoDigitHead a.tail) :
    vsscanf a.text (bytes "ADD %d %d %s %s %d.%d %d.%d")
      = [Arg.int (to_int a.lane.val), Arg.int (to_int a.bib.val), Arg.str a.name,
          Arg.str a.school, Arg.int (to_int a.qual_s.val), Arg.int (to_int a.qual_ms.val),
          Arg.int (to_int a.rec_s.val), Arg.int (to_int a.rec_ms.val)] := by
  obtain ⟨h1, h2, h3, h4, h5, h6, h7, h8⟩ := h
  have sp : isspace 32 = true := by decide
  have nd32 : isdigit 32 = false := by decide
  have nd46 : isdigit 46 = false := by decide
  rw [addLine_text_eq, fmt_add_eq]
  rw [vsscanf_literal (by decide) (by decide), vsscanf_literal (by decide) (by decide),
    vsscanf_literal (by decide) (by decide)]
  rw [vsscanf_space sp, skip_spaces_cons_of _ sp, skip_spaces_lit h1,
    vsscanf_d h1 (noDigitHead_cons _ nd32)]
  rw [vsscanf_space sp, skip_spaces_cons_of _ sp, skip_spaces_lit h2,
    vsscanf_d h2 (noDigitHead_cons _ nd32)]
  rw [vsscanf_space sp, skip_spaces_cons_of _ sp, skip_spaces_token h3,
    vsscanf_s h3 (spaceHead_cons _ sp)]
  rw [vsscanf_space sp, skip_spaces_cons_of _ sp, skip_spaces_token h4,
    vsscanf_s h4 (spaceHead_cons _ sp)]
  rw [vsscanf_space sp, skip_spaces_cons_of _ sp, skip_spaces_lit h5,
    vsscanf_d h5 (noDigitHead_cons _ nd46)]
  rw [vsscanf_literal (by decide) (by decide), vsscanf_d h6 (noDigitHead_cons _ nd32)]
  rw [vsscanf_space sp, skip_spaces_cons_of _ sp, skip_spaces_lit h7,
    vsscanf_d h7 (noDigitHead_cons _ nd46)]
  rw [vsscanf_literal (by decide) (by decide), vsscanf_d h8 ht]
  rw [vsscanf.eq_1]

theorem addLine_fields_ne_zero {a : AddLine} (h : a.fields_wf) (h0 : ∀ c ∈ a.tail, c ≠ 0) :
    ∀ c ∈ a.text, c ≠ 0 := by
  obtain ⟨h1, h2, h3, h4, h5, h6, h7, h8⟩ := h
  intro c hc
  rw [addLine_text_eq] at hc
  simp only [List.mem_cons, List.mem_append] at hc
  rcases hc with hc | hc | hc | hc | hc | hc | hc | hc | hc | hc | hc | hc | hc | hc | hc | hc
    | hc | hc | hc
  any_goals omega
  · exact intLit_text_ne_zero h1 c hc
  · exact intLit_text_ne_zero h2 c hc
  · exact (h3.2 c hc).2
  · exact (h4.2 c hc).2
  · exact intLit_text_ne_zero h5 c hc
  · exact intLit_text_ne_zero h6 c hc
  · exact intLit_text_ne_zero h7 c hc
  · rcases hc with hc | hc
    · exact intLit_text_ne_zero h8 c hc
    · exact h0 c hc

theorem runners_write_add_trailing (l : List runner) (cmd : List Nat) {a : AddLine}
    (h : a.fields_wf) (ht : IsTrailing a.tail) (hlen : a.text.length < 100) :
    runners_write l cmd a.text a.text.length
      = some ⟨a.text.length, l ++ [a.runner],
          [Event.mutex_lock, Event.printk (added_record a.runner), Event.mutex_unlock]⟩ := by
  have hb := addLine_length_bounds a
  have ho : overruns LEN_NAME [Arg.int (to_int a.lane.val), Arg.int (to_int a.bib.val),
      Arg.str a.name, Arg.str a.school, Arg.int (to_int a.qual_s.val),
      Arg.int (to_int a.qual_ms.val), Arg.int (to_int a.rec_s.val),
      Arg.int (to_int a.rec_ms.val)] = false := by
    simp only [overruns, LEN_NAME, List.any_cons, List.any_nil, Bool.or_false, Bool.false_or,
      Bool.or_eq_false_iff, decide_eq_false_iff_not, not_le]
    omega
  have hd : dispatch l a.text (bytes "ADD")
      = some (l ++ [a.runner], [Event.printk (added_record a.runner)]) := by
    unfold dispatch
    simp only [if_true, vsscanf_add_fields h (noDigitHead_of_spaceHead ht.1), ho,
      Bool.false_eq_true, if_false, to_int_encode]
    rfl
  rw [runners_write_ok l cmd a.text (addLine_fields_ne_zero h ht.2) hlen, scan_keyword_add]
  simp only [hd]
  rfl

theorem runners_write_remove_trailing (l : List runner) (cmd : List Nat) {t : IntLit}
    (ht : t.wf) {w : List Nat} (hw : IsTrailing w) (hlen : (remove_line t w).length < 100) :
    runners_write l cmd (remove_line t w) (remove_line t w).length
      = some ⟨(remove_line t w).length, (remove_loop (to_int t.val) l).1,
          [Event.mutex_lock] ++ (remove_loop (to_int t.val) l).2 ++ [Event.mutex_unlock]⟩ := by
  have sp : isspace 32 = true := by decide
  have h0 : ∀ c ∈ remove_line t w, c ≠ 0 := by
    intro c hc
    rw [remove_line_eq] at hc
    simp only [List.mem_cons, List.mem_append] at hc
    rcases hc with hc | hc | hc | hc | hc | hc | hc | hc | hc
    any_goals omega
    · exact intLit_text_ne_zero ht c hc
    · exact hw.2 c hc
  have hv : vsscanf (remove_line t w) (bytes "REMOVE %d") = [Arg.int (to_int t.val)] := by
    rw [remove_line_eq, fmt_remove_eq]
    rw [vsscanf_literal (by decide) (by decide), vsscanf_literal (by decide) (by decide),
      vsscanf_literal (by decide) (by decide), vsscanf_literal (by decide) (by decide),
      vsscanf_literal (by decide) (by decide), vsscanf_literal (by decide) (by decide)]
    rw [vsscanf_space sp, skip_spaces_cons_of _ sp, skip_spaces_lit ht,
      vsscanf_d ht (noDigitHead_of_spaceHead hw.1), vsscanf.eq_1]
  have hd : dispatch l (remove_line t w) (bytes "REMOVE")
      = some (remove_loop (to_int t.val) l) := by
    unfold dispatch
    simp only [keyword_add_ne.2.2.2, if_false, if_true, hv]
  rw [runners_write_ok l cmd _ h0 hlen, scan_keyword_remove]
  simp only [hd]

theorem runners_write_print_trailing (l : List runner) (cmd : List Nat) {w : List Nat}
    (hw : IsTrailing w) (hlen : (print_line w).length < 100) :
    runners_write l cmd (print_line w) (print_line w).length
      = some ⟨(print_line w).length, l, print_trace l⟩ := by
  have hb : bytes "PRINT" = [80, 82, 73, 78, 84] := by decide
  have htok : IsToken [80, 82, 73, 78, 84] := by decide
  have hk : overruns 16 [Arg.str [80, 82, 73, 78, 84]] = false := by decide
  have h0 : ∀ c ∈ print_line w, c ≠ 0 := by
    intro c hc
    rw [print_line_eq] at hc
    simp only [List.mem_cons] at hc
    rcases hc with hc | hc | hc | hc | hc | hc
    any_goals omega
    exact hw.2 c hc
  have hs : scan_keyword (print_line w) cmd = some (bytes "PRINT") := by
    have h := vsscanf_s htok hw.1 []
    rw [vsscanf.eq_1] at h
    have h2 : vsscanf (print_line w) (bytes "%s") = [Arg.str [80, 82, 73, 78, 84]] := by
      rw [print_line_eq, fmt_s_eq]; exact h
    unfold scan_keyword
    simp only [h2, hk, Bool.false_eq_true, if_false, hb]
  have h1 : bytes "PRINT" ≠ bytes "ADD" := by decide
  have h2 : bytes "PRINT" ≠ bytes "REMOVE" := by decide
  have hd : dispatch l (print_line w) (bytes "PRINT")
      = some (l, [Event.printk (bytes "[runners] Printing entire list of runners:\n")]
          ++ print_loop l ++ [Event.printk (bytes "[runners] End of list.\n")]) := by
    unfold dispatch
    simp only [h1, h2, if_false, if_true]
  rw [runners_write_ok l cmd _ h0 hlen, hs]
  simp only [hd, print_trace, print_loop, List.append_assoc, List.cons_append, List.nil_append]

/-! ## Leading white space -/

theorem skip_spaces_append_blank {ws : List Nat} (h : IsBlank ws) (y : List Nat) :
    skip_spaces (ws ++ y) = skip_spaces y := by
  induction ws with
  | nil => rfl
  | cons c ws ih =>
    rw [List.cons_append, skip_spaces_cons_of _ (h c (by simp))]
    exact ih (fun d hd => h d (by simp [hd]))

theorem keyword_leading {ws tok x : List Nat} (hws : IsBlank ws) (htok : IsToken tok)
    (hx : SpaceHead x) : keyword (ws ++ (tok ++ x)) = tok := by
  unfold keyword
  rw [skip_spaces_append_blank hws, skip_spaces_token htok, takeWhile_token htok.2 hx]

theorem scan_keyword_leading (cmd : List Nat) {ws tok x : List Nat} (hws : IsBlank ws)
    (htok : IsToken tok) (hx : SpaceHead x) (hfit : tok.length ≤ 15) :
    scan_keyword (ws ++ (tok ++ x)) cmd = some tok := by
  have hne : ws ++ (tok ++ x) ≠ [] := by
    have := htok.1
    simp [this]
  have h16 : ¬ 16 ≤ tok.length := by omega
  rw [scan_keyword_eq, if_neg hne, keyword_leading hws htok hx, if_neg h16]

theorem vsscanf_mismatch {c k : Nat} (hk : isspace k = false) (h37 : k ≠ 37) (hne : k ≠ c)
    (x fmt : List Nat) : vsscanf (c :: x) (k :: fmt) = [] := by
  rw [vsscanf_other h37]
  simp [hk, hne]

theorem vsscanf_after_blank {ws : List Nat} (hws : IsBlank ws) (hne : ws ≠ []) {k : Nat}
    (hk : isspace k = false) (h37 : k ≠ 37) (y fmt : List Nat) :
    vsscanf (ws ++ y) (k :: fmt) = [] := by
  obtain ⟨c, ws1, rfl⟩ := List.exists_cons_of_ne_nil hne
  have hc := hws c (by simp)
  have hkc : k ≠ c := by
    intro h
    rw [h, hc] at hk
    cases hk
  rw [List.cons_append]
  exact vsscanf_mismatch hk h37 hkc _ _

theorem runners_write_leading_dropped (l : List runner) (cmd : List Nat) {ws y : List Nat}
    (hws : IsBlank ws) (hne : ws ≠ []) (hy : ∀ c ∈ y, c ≠ 0)
    (hlen : (ws ++ y).length < 100) (k : List Nat)
    (hk : scan_keyword (ws ++ y) cmd = some k) (hp : k ≠ bytes "PRINT") :
    runners_write l cmd (ws ++ y) (ws ++ y).length
      = some ⟨(ws ++ y).length, l, [Event.mutex_lock, Event.mutex_unlock]⟩ := by
  have h0 : ∀ c ∈ ws ++ y, c ≠ 0 := by
    intro c hc
    rcases List.mem_append.1 hc with hc | hc
    · exact isBlank_ne_zero hws c hc
    · exact hy c hc
  have hadd : vsscanf (ws ++ y) (bytes "ADD %d %d %s %s %d.%d %d.%d") = [] := by
    rw [fmt_add_eq]
    exact vsscanf_after_blank hws hne (by decide) (by decide) _ _
  have hrem : vsscanf (ws ++ y) (bytes "REMOVE %d") = [] := by
    rw [fmt_remove_eq]
    exact vsscanf_after_blank hws hne (by decide) (by decide) _ _
  have hd : dispatch l (ws ++ y) k = some (l, []) := by
    unfold dispatch
    simp only [hadd, hrem, hp, if_false]
    split
    · rfl
    · split <;> rfl
  rw [runners_write_ok l cmd _ h0 hlen, hk]
  simp only [hd]
  rfl

/-! ## A trailing newline -/

theorem skip_spaces_snoc (str : List Nat) :
    skip_spaces (str ++ [10])
      = if skip_spaces str = [] then [] else skip_spaces str ++ [10] := by
  induction str with
  | nil => decide
  | cons c str ih =>
    rw [List.cons_append]
    cases hc : isspace c with
    | true => rw [skip_spaces_cons_of _ hc, skip_spaces_cons_of _ hc, ih]
    | false =>
      rw [skip_spaces_cons_of_not _ hc, skip_spaces_cons_of_not _ hc]
      simp

theorem takeWhile_snoc_newline (s : List Nat) :
    (s ++ [10]).takeWhile (fun c => !isspace c) = s.takeWhile (fun c => !isspace c) := by
  induction s with
  | nil => decide
  | cons c s ih =>
    rw [List.cons_append, List.takeWhile_cons, List.takeWhile_cons, ih]

theorem dropWhile_snoc_newline (s : List Nat) :
    (s ++ [10]).dropWhile (fun c => !isspace c)
      = s.dropWhile (fun c => !isspace c) ++ [10] := by
  induction s with
  | nil => decide
  | cons c s ih =>
    rw [List.cons_append, List.dropWhile_cons, List.dropWhile_cons, ih]
    split <;> rfl

theorem parse_integer_limit_snoc (s : List Nat) (res : Nat) :
    parse_integer_limit (s ++ [10]) res
      = ((parse_integer_limit s res).1, (parse_integer_limit s res).2 ++ [10]) := by
  induction s generalizing res with
  | nil => rfl
  | cons c s ih =>
    rw [List.cons_append, parse_integer_limit, parse_integer_limit]
    split
    · exact ih _
    · rfl

theorem simple_strntoll_snoc (cp : List Nat) :
    simple_strntoll (cp ++ [10])
      = ((simple_strntoll cp).1, (simple_strntoll cp).2 ++ [10]) := by
  cases cp with
  | nil => rfl
  | cons c cp =>
    unfold simple_strntoll simple_strntoull
    simp only [List.cons_append, List.head?_cons, List.tail_cons]
    split
    · rw [parse_integer_limit_snoc]
    · rw [← List.cons_append, parse_integer_limit_snoc]

theorem guarded_cons {c : Nat} {fmt : List Nat} (h : guarded (c :: fmt) = true) :
    (isspace c = true ∨ starts_s fmt = false) ∧ guarded fmt = true := by
  rw [guarded] at h
  simp only [Bool.and_eq_true, Bool.or_eq_true, Bool.not_eq_true'] at h
  exact h

theorem guarded_conversion {c : Nat} {fmt : List Nat} (hc : isspace c = false)
    (h : guarded (37 :: c :: fmt) = true) : starts_s fmt = false ∧ guarded fmt = true := by
  have h1 := (guarded_cons h).2
  have h2 := guarded_cons h1
  rcases h2.1 with h3 | h3
  · rw [hc] at h3; cases h3
  · exact ⟨h3, h2.2⟩

theorem digit_snoc (str1 : List Nat) (hne : str1 ≠ []) (d : Nat)
    (hd : (if str1.head? = some 45 then str1.tail.head? else str1.head?) = some d) :
    (if (str1 ++ [10]).head? = some 45 then (str1 ++ [10]).tail.head?
      else (str1 ++ [10]).head?) = some d := by
  obtain ⟨c, rest, rfl⟩ := List.exists_cons_of_ne_nil hne
  simp only [List.cons_append, List.head?_cons, List.tail_cons] at hd ⊢
  split at hd
  · rename_i h45
    rw [if_pos h45]
    cases rest with
    | nil => simp at hd
    | cons e rest => simpa using hd
  · rename_i h45
    rw [if_neg h45]
    exact hd

theorem vsscanf_d_newline_stop (str fmt : List Nat)
    (hd : (if (skip_spaces str).head? = some 45 then (skip_spaces str).tail.head?
      else (skip_spaces str).head?) = none) :
    vsscanf (str ++ [10]) (37 :: 100 :: fmt) = [] := by
  have hne : str ++ [10] ≠ [] := by simp
  rw [vsscanf.eq_3, if_neg hne]
  simp only []
  rw [skip_spaces_snoc]
  by_cases h0 : skip_spaces str = []
  · rw [if_pos h0]
    rfl
  · rw [if_neg h0]
    obtain ⟨c, rest, hc⟩ := List.exists_cons_of_ne_nil h0
    rw [hc] at hd ⊢
    simp only [List.head?_cons, List.tail_cons] at hd
    split at hd
    · rename_i h45
      cases rest with
      | nil =>
        simp only [Option.some.injEq] at h45
        subst h45
        have hd10 : isdigit 10 = false := by decide
        simp [hd10]
      | cons e rest => simp at hd
    · cases hd

theorem vsscanf_newline (str fmt : List Nat) (hg : guarded fmt = true)
    (h : str ≠ [] ∨ starts_s fmt = false) :
    vsscanf (str ++ [10]) fmt = vsscanf str fmt := by
  induction str, fmt using vsscanf.induct with
  | case1 str => rw [vsscanf.eq_1, vsscanf.eq_1]
  | case2 fmt =>
    rcases h with h | h
    · exact absurd rfl h
    · simp [starts_s] at h
  | case3 str fmt hne str1 ih =>
    have hg2 := guarded_conversion (by decide) hg
    have hne2 : str ++ [10] ≠ [] := by simp
    rw [vsscanf.eq_2, vsscanf.eq_2, if_neg hne, if_neg hne2]
    simp only []
    rw [skip_spaces_snoc]
    by_cases h0 : skip_spaces str = []
    · rw [if_pos h0, h0]
    · rw [if_neg h0, takeWhile_snoc_newline, dropWhile_snoc_newline,
        ih hg2.2 (Or.inr hg2.1)]
  | case4 fmt =>
    rw [vsscanf.eq_3]
    exact vsscanf_d_newline_stop [] fmt (by decide)
  | case5 str fmt hne str1 digit hd =>
    simp only [str1, digit] at hd
    rw [vsscanf_d_newline_stop str fmt hd, vsscanf.eq_3, if_neg hne]
    simp only [hd]
  | case6 str fmt hne str1 digit d hd hisd r ih =>
    simp only [str1, digit] at hd
    have hg2 := guarded_conversion (by decide) hg
    have hne2 : str ++ [10] ≠ [] := by simp
    have h0 : skip_spaces str ≠ [] := by
      intro h0
      rw [h0] at hd
      simp at hd
    rw [vsscanf.eq_3, vsscanf.eq_3, if_neg hne, if_neg hne2]
    simp only []
    rw [skip_spaces_snoc, if_neg h0, digit_snoc _ h0 d hd, hd]
    simp only [hisd, if_true]
    rw [simple_strntoll_snoc]
    simp only []
    rw [ih hg2.2 (Or.inr hg2.1)]
  | case7 str fmt hne str1 digit d hd hisd =>
    simp only [str1, digit] at hd
    have hne2 : str ++ [10] ≠ [] := by simp
    have h0 : skip_spaces str ≠ [] := by
      intro h0
      rw [h0] at hd
      simp at hd
    rw [vsscanf.eq_3, vsscanf.eq_3, if_neg hne, if_neg hne2]
    simp only []
    rw [skip_spaces_snoc, if_neg h0, digit_snoc _ h0 d hd, hd]
    simp only [hisd, Bool.false_eq_true, if_false]
  | case8 str tail h1 h2 => rw [vsscanf.eq_4 _ _ h1 h2, vsscanf.eq_4 _ _ h1 h2]
  | case9 str c fmt h1 h2 h3 hsp ih =>
    have hg2 := guarded_cons hg
    rw [vsscanf_space hsp, vsscanf_space hsp, skip_spaces_snoc]
    by_cases h0 : skip_spaces str = []
    · rw [if_pos h0, h0]
    · rw [if_neg h0]
      exact ih hg2.2 (Or.inl h0)
  | case10 c fmt h1 h2 h3 hsp =>
    have hsp2 : isspace c = false := by simpa using hsp
    have hc10 : c ≠ 10 := by
      intro hc
      rw [hc] at hsp2
      cases hsp2
    rw [List.nil_append, vsscanf_mismatch hsp2 (fun hc => h3 hc) hc10,
      vsscanf_other (fun hc => h3 hc), if_neg hsp]
  | case11 fmt s str1 h1 h2 h3 hsp ih =>
    have hsp2 : isspace s = false := by simpa using hsp
    have hg2 := guarded_cons hg
    have hs : starts_s fmt = false := by
      rcases hg2.1 with h4 | h4
      · rw [hsp2] at h4; cases h4
      · exact h4
    rw [List.cons_append, vsscanf_literal hsp2 (fun hc => h3 hc),
      vsscanf_literal hsp2 (fun hc => h3 hc)]
    exact ih hg2.2 (Or.inr hs)
  | case12 c fmt h1 h2 h3 hsp s str1 hne =>
    have hsp2 : isspace c = false := by simpa using hsp
    rw [List.cons_append, vsscanf_mismatch hsp2 (fun hc => h3 hc) hne,
      vsscanf_mismatch hsp2 (fun hc => h3 hc) hne]

theorem cstr_append_of_zero {p : List Nat} (h : 0 ∈ p) (y : List Nat) :
    cstr (p ++ y) = cstr p := by
  induction p with
  | nil => simp at h
  | cons c p ih =>
    unfold cstr at ih ⊢
    rw [List.cons_append, List.takeWhile_cons, List.takeWhile_cons]
    by_cases hc : c = 0
    · simp [hc]
    · have hp : 0 ∈ p := by
        rcases List.mem_cons.1 h with h1 | h1
        · exact absurd h1.symm hc
        · exact h1
      rw [ih hp]

theorem scan_keyword_newline (kernel_buffer cmd : List Nat) (h : kernel_buffer ≠ []) :
    scan_keyword (kernel_buffer ++ [10]) cmd = scan_keyword kernel_buffer cmd := by
  have hg : guarded (bytes "%s") = true := by decide
  unfold scan_keyword
  rw [vsscanf_newline _ _ hg (Or.inl h)]

theorem dispatch_newline (l : List runner) (kernel_buffer cmd : List Nat) :
    dispatch l (kernel_buffer ++ [10]) cmd = dispatch l kernel_buffer cmd := by
  have hg1 : guarded (bytes "ADD %d %d %s %s %d.%d %d.%d") = true := by decide
  have hs1 : starts_s (bytes "ADD %d %d %s %s %d.%d %d.%d") = false := by decide
  have hg2 : guarded (bytes "REMOVE %d") = true := by decide
  have hs2 : starts_s (bytes "REMOVE %d") = false := by decide
  unfold dispatch
  rw [vsscanf_newline _ _ hg1 (Or.inr hs1), vsscanf_newline _ _ hg2 (Or.inr hs2)]

/-- The roster and the trace a call leaves behind, as a function of the
contents of `kernel_buffer`. -/
theorem runners_write_outcome (l : List runner) (cmd buf : List Nat) (len : Nat)
    (hlen : len < 100) (hcopy : len ≤ buf.length) :
    (runners_write l cmd buf len).map (fun r => (r.list_of_runners, r.trace))
      = match scan_keyword (cstr (buf.take len)) cmd with
        | none => none
        | some k =>
          (dispatch l (cstr (buf.take len)) k).map
            (fun x => (x.1, [Event.mutex_lock] ++ x.2 ++ [Event.mutex_unlock])) := by
  have h100 : ¬ 100 ≤ len := by omega
  have hc : ¬ buf.length < len := by omega
  unfold runners_write
  rw [if_neg h100, if_neg hc]
  simp only []
  cases scan_keyword (cstr (buf.take len)) cmd with
  | none => rfl
  | some k =>
    simp only []
    cases dispatch l (cstr (buf.take len)) k with
    | none => rfl
    | some x => rfl

theorem runners_write_newline (l : List runner) (cmd p : List Nat) (hlen : p.length ≤ 98)
    (hne : p ≠ []) :
    (runners_write l cmd (p ++ [10]) (p.length + 1)).map
        (fun r => (r.list_of_runners, r.trace))
      = (runners_write l cmd p p.length).map (fun r => (r.list_of_runners, r.trace)) := by
  have ht1 : (p ++ [10]).take (p.length + 1) = p ++ [10] := by
    apply List.take_of_length_le
    simp
  have ht2 : p.take p.length = p := List.take_length p
  rw [runners_write_outcome l cmd (p ++ [10]) (p.length + 1) (by omega) (by simp),
    runners_write_outcome l cmd p p.length (by omega) (Nat.le_refl _), ht1, ht2]
  by_cases hz : 0 ∈ p
  · rw [cstr_append_of_zero hz]
  · have h0 : ∀ c ∈ p, c ≠ 0 := fun c hc hc0 => hz (hc0 ▸ hc)
    have h1 : ∀ c ∈ p ++ [10], c ≠ 0 := by
      intro c hc
      rcases List.mem_append.1 hc with hc | hc
      · exact h0 c hc
      · simp only [List.mem_singleton] at hc
        omega
    rw [cstr_eq_self h0, cstr_eq_self h1, scan_keyword_newline p cmd hne]
    cases scan_keyword p cmd with
    | none => rfl
    | some k =>
      simp only []
      rw [dispatch_newline]

/-! ## The claims, continued -/

/-- Counterexample to C11 as stated (every payload of 99 bytes or more is
rejected): the `ADD` line of `ana` padded with spaces to exactly 99 bytes is
accepted, returns 99 and appends the runner. -/
theorem payload_of_99_bytes_is_accepted :
    (ana.text ++ List.replicate 66 32).length = 99
      ∧ runners_write [] [] (ana.text ++ List.replicate 66 32) 99
        = some ⟨99, [ana.runner],
            [Event.mutex_lock, Event.printk (added_record ana.runner), Event.mutex_unlock]⟩
      ∧ runners_write [] [] (ana.text ++ List.replicate 66 32) 99 ≠ some ⟨-EINVAL, [], []⟩ := by
  decide

/-- C11 as amended.  The length check rejects exactly the payloads of 100 bytes
or more: a call returns `-EINVAL` if and only if `100 ≤ len`, and then the
roster is unchanged and nothing is logged; a payload of 99 bytes, the longest
accepted one, is past the check. -/
theorem rejected_exactly_from_100_bytes (l : List runner) (cmd buf : List Nat) (len : Nat) :
    ((∃ r : Result, runners_write l cmd buf len = some r ∧ r.ret = -EINVAL) ↔ 100 ≤ len)
      ∧ (100 ≤ len → runners_write l cmd buf len = some ⟨-EINVAL, l, []⟩) := by
  have hrej : 100 ≤ len → runners_write l cmd buf len = some ⟨-EINVAL, l, []⟩ := by
    intro h
    unfold runners_write
    rw [if_pos h]
  refine ⟨⟨?_, fun h => ⟨_, hrej h, rfl⟩⟩, hrej⟩
  rintro ⟨r, hr, hret⟩
  by_contra h100
  unfold runners_write at hr
  rw [if_neg h100] at hr
  split at hr
  · cases hr
    simp [EINVAL, EFAULT] at hret
  · simp only [] at hr
    split at hr
    · cases hr
    · split at hr
      · cases hr
      · cases hr
        simp only [EINVAL] at hret
        omega

/-- Witness of the amended C11: 100 bytes are rejected, and no call of 99 bytes
returns `-EINVAL`. -/
theorem rejected_exactly_from_100_bytes_witness :
    runners_write [ana.runner] [] (ana.text ++ List.replicate 67 32) 100
        = some ⟨-EINVAL, [ana.runner], []⟩
      ∧ ¬ ∃ r : Result,
          runners_write [ana.runner] [] (ana.text ++ List.replicate 66 32) 99 = some r
            ∧ r.ret = -EINVAL :=
  ⟨(rejected_exactly_from_100_bytes [ana.runner] [] (ana.text ++ List.replicate 67 32) 100).2
      (by decide),
    fun h => absurd
      ((rejected_exactly_from_100_bytes [ana.runner] [] (ana.text ++ List.replicate 66 32)
        99).1.1 h) (by decide)⟩

/-- Counterexample to C12 as stated (a recognized keyword with additional
trailing tokens produces no roster mutation and no log line): `REMOVE 101 junk`
removes the runner of `ana` and logs it, `PRINT junk` logs the listing, and the
`ADD` line of `ana` followed by a seventh token appends the runner. -/
theorem trailing_tokens_do_not_stop_a_command :
    runners_write [ana.runner] [] (bytes "REMOVE 101 junk") 15
        = some ⟨15, [],
            [Event.mutex_lock, Event.printk (removed_record ana.runner), Event.mutex_unlock]⟩
      ∧ runners_write [] [] (bytes "PRINT junk") 10
        = some ⟨10, [],
            [Event.mutex_lock,
              Event.printk (bytes "[runners] Printing entire list of runners:\n"),
              Event.printk (bytes "[runners] End of list.\n"), Event.mutex_unlock]⟩
      ∧ runners_write [] [] (bytes "ADD 3 101 Ana Lincoln 12.34 11.00 extra") 39
        = some ⟨39, [ana.runner],
            [Event.mutex_lock, Event.printk (added_record ana.runner), Event.mutex_unlock]⟩ := by
  decide

/-- Whatever follows the last field of a line after a white-space byte is
ignored: `ADD` appends the runner and logs it, `REMOVE` runs the removal loop
for the written bib, `PRINT` lists the roster. -/
theorem trailing_input_is_ignored (l : List runner) (cmd : List Nat) (a : AddLine)
    (t : IntLit) (w : List Nat)
    (ha : a.fields_wf) (hat : IsTrailing a.tail) (halen : a.text.length < 100)
    (ht : t.wf) (hw : IsTrailing w)
    (hrlen : (remove_line t w).length < 100) (hplen : (print_line w).length < 100) :
    runners_write l cmd a.text a.text.length
        = some ⟨a.text.length, l ++ [a.runner],
            [Event.mutex_lock, Event.printk (added_record a.runner), Event.mutex_unlock]⟩
      ∧ runners_write l cmd (remove_line t w) (remove_line t w).length
        = some ⟨(remove_line t w).length, (remove_loop (to_int t.val) l).1,
            [Event.mutex_lock] ++ (remove_loop (to_int t.val) l).2 ++ [Event.mutex_unlock]⟩
      ∧ runners_write l cmd (print_line w) (print_line w).length
        = some ⟨(print_line w).length, l, print_trace l⟩ :=
  ⟨runners_write_add_trailing l cmd ha hat halen,
    runners_write_remove_trailing l cmd ht hw hrlen,
    runners_write_print_trailing l cmd hw hplen⟩

/-- The line of `ben` followed by ` extra`, and `REMOVE 230 junk` and
`PRINT junk`, on the roster of `cy`. -/
theorem trailing_input_is_ignored_witness :
    AddLine.text { ben with tail := bytes " extra" }
        = bytes "ADD 5 101 Ben Mercer 13.07 12.80 extra"
      ∧ remove_line ⟨false, bytes "230"⟩ (bytes " junk") = bytes "REMOVE 230 junk"
      ∧ print_line (bytes " junk") = bytes "PRINT junk"
      ∧ (runners_write [cy.runner] [] (AddLine.text { ben with tail := bytes " extra" })
            (AddLine.text { ben with tail := bytes " extra" }).length
          = some ⟨(AddLine.text { ben with tail := bytes " extra" }).length,
              [cy.runner] ++ [AddLine.runner { ben with tail := bytes " extra" }],
              [Event.mutex_lock,
                Event.printk (added_record (AddLine.runner { ben with tail := bytes " extra" })),
                Event.mutex_unlock]⟩
        ∧ runners_write [cy.runner] [] (remove_line ⟨false, bytes "230"⟩ (bytes " junk"))
            (remove_line ⟨false, bytes "230"⟩ (bytes " junk")).length
          = some ⟨(remove_line ⟨false, bytes "230"⟩ (bytes " junk")).length,
              (remove_loop (to_int (IntLit.val ⟨false, bytes "230"⟩)) [cy.runner]).1,
              [Event.mutex_lock]
                ++ (remove_loop (to_int (IntLit.val ⟨false, bytes "230"⟩)) [cy.runner]).2
                ++ [Event.mutex_unlock]⟩
        ∧ runners_write [cy.runner] [] (print_line (bytes " junk"))
            (print_line (bytes " junk")).length
          = some ⟨(print_line (bytes " junk")).length, [cy.runner], print_trace [cy.runner]⟩) :=
  ⟨by decide, by decide, by decide,
    trailing_input_is_ignored [cy.runner] [] { ben with tail := bytes " extra" }
      ⟨false, bytes "230"⟩ (bytes " junk") (by decide)
      ⟨spaceHead_cons _ (by decide), by decide⟩ (by decide) (by decide)
      ⟨spaceHead_cons _ (by decide), by decide⟩ (by decide) (by decide)⟩

/-- C13 (no range check on the hundredths).  An otherwise well-formed `ADD` line
whose time field reads `s.h` with hundredths `h ≥ 100` (and `s * 100 + h` in the
range of `int`) is accepted and stores `s * 100 + h`; the logged record shows
the field with seconds `s + h / 100`, which differ from `s`, and hundredths
`h % 100`.  Both time fields are encoded and rendered this way, whatever the
size of their hundredths. -/
theorem hundredths_are_not_range_checked (l : List runner) (cmd : List Nat) (lane bib : IntLit)
    (name school w : List Nat) (s1 h1 s2 h2 : Nat)
    (hlane : lane.wf) (hbib : bib.wf) (hname : IsToken name) (hschool : IsToken school)
    (hw : IsBlank w) (hh1 : 100 ≤ h1)
    (hr1 : s1 * 100 + h1 < 2 ^ 31) (hr2 : s2 * 100 + h2 < 2 ^ 31)
    (hlen : (plain_time_line lane bib name school s1 h1 s2 h2 w).text.length < 100) :
    runners_write l cmd (plain_time_line lane bib name school s1 h1 s2 h2 w).text
        (plain_time_line lane bib name school s1 h1 s2 h2 w).text.length
      = some ⟨(plain_time_line lane bib name school s1 h1 s2 h2 w).text.length,
          l ++ [⟨to_int lane.val, to_int bib.val, name, school,
                  ((s1 * 100 + h1 : Nat) : Int), ((s2 * 100 + h2 : Nat) : Int)⟩],
          [Event.mutex_lock,
            Event.printk (bytes "[runners] Added Runner: Lane: " ++ number (to_int lane.val) 0
              ++ bytes " | Bib: " ++ number (to_int bib.val) 0
              ++ bytes " | Name: " ++ name ++ bytes " | School: " ++ school
              ++ bytes " | Qualifier Time: " ++ decimal (s1 + h1 / 100) ++ bytes "."
              ++ two_digits (h1 % 100)
              ++ bytes " | Personal Record: " ++ decimal (s2 + h2 / 100) ++ bytes "."
              ++ two_digits (h2 % 100) ++ bytes "\n"),
            Event.mutex_unlock]⟩
      ∧ s1 + h1 / 100 ≠ s1 := by
  have hwf : (plain_time_line lane bib name school s1 h1 s2 h2 w).wf :=
    ⟨hlane, hbib, hname, hschool, decimal_wf s1, decimal_wf h1, decimal_wf s2, decimal_wf h2, hw⟩
  have hq : to_int ((s1 : Int) * 100 + (h1 : Int)) = ((s1 * 100 + h1 : Nat) : Int) := by
    rw [to_int_of_range] <;> push_cast <;> norm_num at hr1 ⊢ <;> omega
  have hp : to_int ((s2 : Int) * 100 + (h2 : Int)) = ((s2 * 100 + h2 : Nat) : Int) := by
    rw [to_int_of_range] <;> push_cast <;> norm_num at hr2 ⊢ <;> omega
  have hrun : (plain_time_line lane bib name school s1 h1 s2 h2 w).runner
      = ⟨to_int lane.val, to_int bib.val, name, school,
          ((s1 * 100 + h1 : Nat) : Int), ((s2 * 100 + h2 : Nat) : Int)⟩ := by
    simp only [AddLine.runner, plain_time_line, val_decimal, hq, hp]
  have hdiv : ∀ s h : Nat, ((s * 100 + h : Nat) : Int).tdiv 100 = ((s + h / 100 : Nat) : Int)
      ∧ ((s * 100 + h : Nat) : Int).tmod 100 = ((h % 100 : Nat) : Int) := by
    intro s h
    have e1 : ((s * 100 + h : Nat) : Int).tdiv 100 = (((s * 100 + h) / 100 : Nat) : Int) := rfl
    have e2 : ((s * 100 + h : Nat) : Int).tmod 100 = (((s * 100 + h) % 100 : Nat) : Int) := rfl
    have e3 : (s * 100 + h) / 100 = s + h / 100 := by omega
    have e4 : (s * 100 + h) % 100 = h % 100 := by omega
    rw [e1, e2, e3, e4]
    exact ⟨rfl, rfl⟩
  have hs1 : s1 + h1 / 100 < 10 ^ 20 := by norm_num at hr1 ⊢; omega
  have hs2 : s2 + h2 / 100 < 10 ^ 20 := by norm_num at hr2 ⊢; omega
  have hm1 : h1 % 100 ≤ 99 := by omega
  have hm2 : h2 % 100 ≤ 99 := by omega
  have hpre : bytes "[runners] Added Runner: Lane: "
      = bytes "[runners] Added Runner: " ++ bytes "Lane: " := by decide
  refine ⟨?_, by omega⟩
  rw [runners_write_add l cmd hwf hlen, hrun, added_record_eq, record_body, hpre]
  simp only [(hdiv s1 h1).1, (hdiv s1 h1).2, (hdiv s2 h2).1, (hdiv s2 h2).2,
    number_nat _ hs1, number_nat _ hs2, number_two_digits hm1, number_two_digits hm2,
    List.append_assoc]

/-- Witness of C13: `ADD 3 101 Ana Lincoln 10.150 9.99` stores qualifier 1150 and
logs it as `11.50`. -/
theorem hundredths_are_not_range_checked_witness :
    (plain_time_line ⟨false, bytes "3"⟩ ⟨false, bytes "101"⟩ (bytes "Ana") (bytes "Lincoln")
        10 150 9 99 []).text = bytes "ADD 3 101 Ana Lincoln 10.150 9.99"
      ∧ decimal (10 + 150 / 100) ++ bytes "." ++ two_digits (150 % 100) = bytes "11.50"
      ∧ (runners_write [] []
          (plain_time_line ⟨false, bytes "3"⟩ ⟨false, bytes "101"⟩ (bytes "Ana") (bytes "Lincoln")
            10 150 9 99 []).text
          (plain_time_line ⟨false, bytes "3"⟩ ⟨false, bytes "101"⟩ (bytes "Ana") (bytes "Lincoln")
            10 150 9 99 []).text.length
        = some ⟨(plain_time_line ⟨false, bytes "3"⟩ ⟨false, bytes "101"⟩ (bytes "Ana")
              (bytes "Lincoln") 10 150 9 99 []).text.length,
            [] ++ [⟨to_int (IntLit.val ⟨false, bytes "3"⟩),
                    to_int (IntLit.val ⟨false, bytes "101"⟩), bytes "Ana", bytes "Lincoln",
                    ((10 * 100 + 150 : Nat) : Int), ((9 * 100 + 99 : Nat) : Int)⟩],
            [Event.mutex_lock,
              Event.printk (bytes "[runners] Added Runner: Lane: "
                ++ number (to_int (IntLit.val ⟨false, bytes "3"⟩)) 0
                ++ bytes " | Bib: " ++ number (to_int (IntLit.val ⟨false, bytes "101"⟩)) 0
                ++ bytes " | Name: " ++ bytes "Ana" ++ bytes " | School: " ++ bytes "Lincoln"
                ++ bytes " | Qualifier Time: " ++ decimal (10 + 150 / 100) ++ bytes "."
                ++ two_digits (150 % 100)
                ++ bytes " | Personal Record: " ++ decimal (9 + 99 / 100) ++ bytes "."
                ++ two_digits (99 % 100) ++ bytes "\n"),
              Event.mutex_unlock]⟩
        ∧ 10 + 150 / 100 ≠ 10) := by
  have h10 : decimal 10 = [49, 48] := by simp [decimal]
  have h150 : decimal 150 = [49, 53, 48] := by simp [decimal]
  have h9 : decimal 9 = [57] := by simp [decimal]
  have h99 : decimal 99 = [57, 57] := by simp [decimal]
  have h11 : decimal (10 + 150 / 100) = [49, 49] := by simp [decimal]
  have htext : (plain_time_line ⟨false, bytes "3"⟩ ⟨false, bytes "101"⟩ (bytes "Ana")
      (bytes "Lincoln") 10 150 9 99 []).text = bytes "ADD 3 101 Ana Lincoln 10.150 9.99" := by
    simp only [plain_time_line, AddLine.text, IntLit.text, h10, h150, h9, h99]
    decide
  refine ⟨htext, by rw [h11]; decide, ?_⟩
  exact hundredths_are_not_range_checked [] [] ⟨false, bytes "3"⟩ ⟨false, bytes "101"⟩
    (bytes "Ana") (bytes "Lincoln") [] 10 150 9 99 (by decide) (by decide) (by decide)
    (by decide) (by decide) (by decide) (by decide) (by decide) (by rw [htext]; decide)

/-- C14 (the trailing newline is not required).  For every roster and every
payload `p` of at most 98 bytes with at least one byte that is not white space,
writing `p` and writing `p` followed by one newline, from the same roster and
the same contents of the array `cmd`, have the same outcome: the same resulting
roster and the same trace, hence the same log records; and when the first token
of `p` has at most 15 bytes both calls return. -/
theorem trailing_newline_changes_nothing (l : List runner) (cmd p : List Nat)
    (hlen : p.length ≤ 98) (hp : ∃ c ∈ p, isspace c = false) :
    (runners_write l cmd (p ++ [10]) (p.length + 1)).map
          (fun r => (r.list_of_runners, r.trace))
        = (runners_write l cmd p p.length).map (fun r => (r.list_of_runners, r.trace))
      ∧ ((keyword (cstr p)).length ≤ 15 →
          ∃ r r2 : Result, runners_write l cmd p p.length = some r
            ∧ runners_write l cmd (p ++ [10]) (p.length + 1) = some r2
            ∧ r2.list_of_runners = r.list_of_runners ∧ r2.trace = r.trace
            ∧ r2.log = r.log) := by
  have hne : p ≠ [] := by
    obtain ⟨c, hc, _⟩ := hp
    exact List.ne_nil_of_mem hc
  have heq := runners_write_newline l cmd p hlen hne
  refine ⟨heq, fun hfit => ?_⟩
  have hfit1 : (keyword (cstr (p.take p.length))).length ≤ 15 := by
    rw [List.take_length]; exact hfit
  obtain ⟨r, hr, _⟩ :=
    runners_write_returns_len l cmd p p.length (by omega) (Nat.le_refl _) hfit1
  rw [hr] at heq
  cases hr2 : runners_write l cmd (p ++ [10]) (p.length + 1) with
  | none => rw [hr2] at heq; cases heq
  | some r2 =>
    rw [hr2] at heq
    simp only [Option.map_some', Option.some.injEq, Prod.mk.injEq] at heq
    refine ⟨r, r2, hr, rfl, heq.1, heq.2, ?_⟩
    unfold Result.log
    rw [heq.2]

/-- Witness of C14: the line of `ana` written without and with its newline,
on the roster of `cy`. -/
theorem trailing_newline_changes_nothing_witness :
    ana.text ++ [10] = bytes "ADD 3 101 Ana Lincoln 12.34 11.00\n"
      ∧ (runners_write [cy.runner] [] (ana.text ++ [10]) (ana.text.length + 1)).map
          (fun r => (r.list_of_runners, r.trace))
        = (runners_write [cy.runner] [] ana.text ana.text.length).map
          (fun r => (r.list_of_runners, r.trace))
      ∧ (runners_write [cy.runner] [] ana.text ana.text.length).map
          (fun r => (r.list_of_runners, r.trace))
        = some ([cy.runner, ana.runner],
            [Event.mutex_lock, Event.printk (added_record ana.runner), Event.mutex_unlock]) :=
  ⟨by decide,
    (trailing_newline_changes_nothing [cy.runner] [] ana.text (by decide)
      ⟨65, by decide, by decide⟩).1,
    by decide⟩

/-- C15 (init) at a successful `class_create`: for the valid pointer
`0xffff888103a4c000`, which is not an error pointer, `runners_init` returns the
low 32 bits of the pointer, 61128704, and its trace ends after `class_create`:
no device node is created and the ready message is not logged; for no pointer
value does the trace contain `device_create`. -/
theorem init_returns_before_device_create :
    IS_ERR 0xffff888103a4c000 = false
      ∧ runners_init 0xffff888103a4c000
        = ⟨61128704, [InitEvent.register_chrdev, InitEvent.class_create]⟩
      ∧ (runners_init 0xffff888103a4c000).ret ≠ 0
      ∧ ∀ runner_class : Nat, InitEvent.device_create ∉ (runners_init runner_class).trace := by
  refine ⟨by decide, by decide, by decide, ?_⟩
  intro p
  unfold runners_init
  simp only []
  split <;> simp

/-- C17 (lock discipline).  Every call of `runners_write` that returns has one
of two traces: a call rejected by the length check or by the copy fault takes no
lock and logs nothing; every other call takes the lock once, as its first step,
releases it once, as its last step, and only logs in between.  This covers the
`ADD`, `REMOVE` (found or not), `PRINT` and dropped-command paths, and the only
calls that do not return are those whose keyword overruns `cmd`, which happens
before the lock is taken. -/
theorem lock_is_released_on_every_return (l : List runner) (cmd buf : List Nat) (len : Nat) :
    (∀ r : Result, runners_write l cmd buf len = some r →
        ((100 ≤ len ∨ buf.length < len) ∧ r.ret < 0 ∧ r.trace = [])
          ∨ (len < 100 ∧ len ≤ buf.length ∧ r.ret = len
              ∧ ∃ events : List Event,
                  r.trace = [Event.mutex_lock] ++ events ++ [Event.mutex_unlock]
                    ∧ ∀ e ∈ events, ∃ line, e = Event.printk line))
      ∧ (runners_write l cmd buf len = none →
          len < 100 ∧ len ≤ buf.length ∧ 16 ≤ (keyword (cstr (buf.take len))).length) := by
  by_cases h100 : 100 ≤ len
  · have h : runners_write l cmd buf len = some ⟨-EINVAL, l, []⟩ := by
      unfold runners_write; rw [if_pos h100]
    rw [h]
    refine ⟨fun r hr => ?_, fun hn => by cases hn⟩
    cases hr
    exact Or.inl ⟨Or.inl h100, by simp [EINVAL], rfl⟩
  · by_cases hc : buf.length < len
    · have h : runners_write l cmd buf len = some ⟨-EFAULT, l, []⟩ := by
        unfold runners_write; rw [if_neg h100, if_pos hc]
      rw [h]
      refine ⟨fun r hr => ?_, fun hn => by cases hn⟩
      cases hr
      exact Or.inl ⟨Or.inr hc, by simp [EFAULT], rfl⟩
    · have hlen : len < 100 := by omega
      have hcopy : len ≤ buf.length := by omega
      cases hk : scan_keyword (cstr (buf.take len)) cmd with
      | none =>
        have hn := runners_write_overrun l cmd buf len hlen hcopy hk
        constructor
        · intro r hr
          rw [hn] at hr
          cases hr
        · intro _
          exact ⟨hlen, hcopy, ((scan_keyword_overrun _ _).1 hk).2⟩
      | some k =>
        obtain ⟨l2, ev, hd, hw⟩ := runners_write_defined l cmd buf len hlen hcopy k hk
        rw [hw]
        refine ⟨fun r hr => ?_, fun hn => by cases hn⟩
        cases hr
        exact Or.inr ⟨hlen, hcopy, rfl, ev, rfl, dispatch_events_printk _ _ _ _ _ hd⟩

/-- Witness of C17: `REMOVE 101` with its newline on the roster of `ana`, the
path that breaks out of the removal loop. -/
theorem lock_is_released_on_every_return_witness :
    runners_write [ana.runner] [] (bytes "REMOVE 101\n") 11
        = some ⟨11, [],
            [Event.mutex_lock, Event.printk (removed_record ana.runner), Event.mutex_unlock]⟩
      ∧ (((100 ≤ 11 ∨ (bytes "REMOVE 101\n").length < 11)
            ∧ (Result.mk 11 [] [Event.mutex_lock, Event.printk (removed_record ana.runner),
                  Event.mutex_unlock]).ret < 0
            ∧ (Result.mk 11 [] [Event.mutex_lock, Event.printk (removed_record ana.runner),
                  Event.mutex_unlock]).trace = [])
          ∨ (11 < 100 ∧ 11 ≤ (bytes "REMOVE 101\n").length
              ∧ (Result.mk 11 [] [Event.mutex_lock, Event.printk (removed_record ana.runner),
                  Event.mutex_unlock]).ret = (11 : Nat)
              ∧ ∃ events : List Event,
                  (Result.mk 11 [] [Event.mutex_lock, Event.printk (removed_record ana.runner),
                      Event.mutex_unlock]).trace
                    = [Event.mutex_lock] ++ events ++ [Event.mutex_unlock]
                    ∧ ∀ e ∈ events, ∃ line, e = Event.printk line)) :=
  ⟨by decide,
    (lock_is_released_on_every_return [ana.runner] [] (bytes "REMOVE 101\n") 11).1 _
      (by decide)⟩

/-- C18 (name and school fit).  For every payload that passes the length check,
whatever the `ADD` scan stores fits its array: no stored string reaches
`LEN_NAME` bytes; and when the scan stores all eight values, the name and the
school have at most 99 bytes each, so that each with its terminator fits its
100-byte field and `strcpy` stays inside `name[LEN_NAME]` and
`school[LEN_SCHOOL]`. -/
theorem add_name_and_school_fit (buf : List Nat) (len : Nat) (hlen : len ≤ 99)
    (lane bib : Int) (name school : List Nat) (qs qms rs rms : Int)
    (h : vsscanf (cstr (buf.take len)) (bytes "ADD %d %d %s %s %d.%d %d.%d")
      = [Arg.int lane, Arg.int bib, Arg.str name, Arg.str school, Arg.int qs, Arg.int qms,
          Arg.int rs, Arg.int rms]) :
    overruns LEN_NAME (vsscanf (cstr (buf.take len)) (bytes "ADD %d %d %s %s %d.%d %d.%d"))
        = false
      ∧ name.length ≤ 99 ∧ school.length ≤ 99
      ∧ name.length + 1 ≤ LEN_NAME ∧ school.length + 1 ≤ LEN_SCHOOL := by
  have hkb : (cstr (buf.take len)).length < LEN_NAME := by
    have h1 := cstr_length (buf.take len)
    have h2 : (buf.take len).length ≤ len := by simp
    unfold LEN_NAME
    omega
  have ho := overruns_vsscanf LEN_NAME _ (bytes "ADD %d %d %s %s %d.%d %d.%d") hkb
  refine ⟨ho, ?_⟩
  rw [h] at ho
  simp only [overruns, LEN_NAME, List.any_cons, List.any_nil, Bool.or_false, Bool.false_or,
    Bool.or_eq_false_iff, decide_eq_false_iff_not, not_le] at ho
  unfold LEN_NAME LEN_SCHOOL
  omega

/-- Witness of C18: the line of `ben`, 33 bytes with its newline. -/
theorem add_name_and_school_fit_witness :
    ben.text = bytes "ADD 5 101 Ben Mercer 13.07 12.80\n"
      ∧ (overruns LEN_NAME
            (vsscanf (cstr (ben.text.take 33)) (bytes "ADD %d %d %s %s %d.%d %d.%d")) = false
        ∧ (bytes "Ben").length ≤ 99 ∧ (bytes "Mercer").length ≤ 99
        ∧ (bytes "Ben").length + 1 ≤ LEN_NAME ∧ (bytes "Mercer").length + 1 ≤ LEN_SCHOOL) :=
  ⟨by decide,
    add_name_and_school_fit ben.text 33 (by decide) 5 101 (bytes "Ben") (bytes "Mercer")
      13 7 12 80 (by decide)⟩

/-- C19 (the keyword is not bounded).  Some payload accepted by the length check
has a first token longer than 15 bytes: for the 16 bytes `AAAAAAAAAAAAAAAA` the
keyword scan stores the whole 16-byte token, which with its terminator needs 17
bytes and does not fit `cmd[16]`, and the call does not reach its `return`,
whatever the roster and the previous contents of `cmd`. -/
theorem keyword_can_overrun_cmd :
    ∃ p : List Nat, p.length < 100
      ∧ vsscanf (cstr (p.take p.length)) (bytes "%s") = [Arg.str (keyword (cstr p))]
      ∧ 15 < (keyword (cstr p)).length
      ∧ 16 < (keyword (cstr p)).length + 1
      ∧ ∀ (l : List runner) (cmd : List Nat), runners_write l cmd p p.length = none := by
  refine ⟨bytes "AAAAAAAAAAAAAAAA", by decide, by decide, by decide, by decide, ?_⟩
  intro l cmd
  apply runners_write_overrun l cmd _ _ (by decide) (by decide)
  rw [scan_keyword_overrun]
  decide

/-- C20 (leading white space).  When a command line is preceded by at least one
white-space byte, the keyword scan skips the white space and still finds the
keyword, so a `PRINT` is executed; an otherwise well-formed `ADD` or `REMOVE` is
dropped, with the roster unchanged and nothing logged, because its field scan
compares the literal keyword with the first byte of the buffer. -/
theorem leading_white_space_drops_add_and_remove (l : List runner) (cmd ws w : List Nat)
    (a : AddLine) (t : IntLit)
    (hws : IsBlank ws) (hne : ws ≠ []) (hw : IsBlank w) (ha : a.wf) (ht : t.wf)
    (hplen : (ws ++ print_line w).length < 100)
    (halen : (ws ++ a.text).length < 100)
    (hrlen : (ws ++ remove_line t w).length < 100) :
    (keyword (ws ++ print_line w) = bytes "PRINT"
        ∧ runners_write l cmd (ws ++ print_line w) (ws ++ print_line w).length
          = some ⟨(ws ++ print_line w).length, l, print_trace l⟩)
      ∧ (keyword (ws ++ a.text) = bytes "ADD"
        ∧ runners_write l cmd (ws ++ a.text) (ws ++ a.text).length
          = some ⟨(ws ++ a.text).length, l, [Event.mutex_lock, Event.mutex_unlock]⟩)
      ∧ (keyword (ws ++ remove_line t w) = bytes "REMOVE"
        ∧ runners_write l cmd (ws ++ remove_line t w) (ws ++ remove_line t w).length
          = some ⟨(ws ++ remove_line t w).length, l,
              [Event.mutex_lock, Event.mutex_unlock]⟩) := by
  have sp : isspace 32 = true := by decide
  have hP : bytes "PRINT" = [80, 82, 73, 78, 84] := by decide
  have hA : bytes "ADD" = [65, 68, 68] := by decide
  have hR : bytes "REMOVE" = [82, 69, 77, 79, 86, 69] := by decide
  have tP : IsToken [80, 82, 73, 78, 84] := by decide
  have tA : IsToken [65, 68, 68] := by decide
  have tR : IsToken [82, 69, 77, 79, 86, 69] := by decide
  have eP : print_line w = [80, 82, 73, 78, 84] ++ w := by rw [print_line_eq]; rfl
  have eA : ∃ x, SpaceHead x ∧ a.text = [65, 68, 68] ++ x :=
    ⟨_, spaceHead_cons _ sp, by rw [addLine_text_eq]; rfl⟩
  have eR : ∃ x, SpaceHead x ∧ remove_line t w = [82, 69, 77, 79, 86, 69] ++ x :=
    ⟨_, spaceHead_cons _ sp, by rw [remove_line_eq]; rfl⟩
  obtain ⟨xa, hxa, eA⟩ := eA
  obtain ⟨xr, hxr, eR⟩ := eR
  refine ⟨⟨?_, ?_⟩, ⟨?_, ?_⟩, ⟨?_, ?_⟩⟩
  · rw [eP, hP]; exact keyword_leading hws tP (spaceHead_blank hw)
  · have h0 : ∀ c ∈ ws ++ print_line w, c ≠ 0 := by
      intro c hc
      rcases List.mem_append.1 hc with hc | hc
      · exact isBlank_ne_zero hws c hc
      · exact print_line_ne_zero hw c hc
    have hk : scan_keyword (ws ++ print_line w) cmd = some (bytes "PRINT") := by
      rw [eP, hP]
      exact scan_keyword_leading cmd hws tP (spaceHead_blank hw) (by decide)
    have h1 : bytes "PRINT" ≠ bytes "ADD" := by decide
    have h2 : bytes "PRINT" ≠ bytes "REMOVE" := by decide
    have hd : dispatch l (ws ++ print_line w) (bytes "PRINT")
        = some (l, [Event.printk (bytes "[runners] Printing entire list of runners:\n")]
            ++ print_loop l ++ [Event.printk (bytes "[runners] End of list.\n")]) := by
      unfold dispatch
      simp only [h1, h2, if_false, if_true]
    rw [runners_write_ok l cmd _ h0 hplen, hk]
    simp only [hd, print_trace, print_loop, List.append_assoc, List.cons_append,
      List.nil_append]
  · rw [eA, hA]; exact keyword_leading hws tA hxa
  · have hk : scan_keyword (ws ++ a.text) cmd = some (bytes "ADD") := by
      rw [eA, hA]
      exact scan_keyword_leading cmd hws tA hxa (by decide)
    exact runners_write_leading_dropped l cmd hws hne (addLine_text_ne_zero ha) halen _ hk
      (by decide)
  · rw [eR, hR]; exact keyword_leading hws tR hxr
  · have hk : scan_keyword (ws ++ remove_line t w) cmd = some (bytes "REMOVE") := by
      rw [eR, hR]
      exact scan_keyword_leading cmd hws tR hxr (by decide)
    exact runners_write_leading_dropped l cmd hws hne (remove_line_ne_zero ht hw) hrlen _ hk
      (by decide)

/-- Witness of C20: one leading space before `PRINT`, before the line of `ben`
and before `REMOVE 101`, on the roster of `ana`, who carries bib 101. -/
theorem leading_white_space_drops_add_and_remove_witness :
    [32] ++ remove_line ⟨false, bytes "101"⟩ [10] = bytes " REMOVE 101\n"
      ∧ ana.runner.bib_num = 101
      ∧ ((keyword ([32] ++ print_line [10]) = bytes "PRINT"
          ∧ runners_write [ana.runner] [] ([32] ++ print_line [10])
              ([32] ++ print_line [10]).length
            = some ⟨([32] ++ print_line [10]).length, [ana.runner], print_trace [ana.runner]⟩)
        ∧ (keyword ([32] ++ ben.text) = bytes "ADD"
          ∧ runners_write [ana.runner] [] ([32] ++ ben.text) ([32] ++ ben.text).length
            = some ⟨([32] ++ ben.text).length, [ana.runner],
                [Event.mutex_lock, Event.mutex_unlock]⟩)
        ∧ (keyword ([32] ++ remove_line ⟨false, bytes "101"⟩ [10]) = bytes "REMOVE"
          ∧ runners_write [ana.runner] [] ([32] ++ remove_line ⟨false, bytes "101"⟩ [10])
              ([32] ++ remove_line ⟨false, bytes "101"⟩ [10]).length
            = some ⟨([32] ++ remove_line ⟨false, bytes "101"⟩ [10]).length, [ana.runner],
                [Event.mutex_lock, Event.mutex_unlock]⟩)) :=
  ⟨by decide, by decide,
    leading_white_space_drops_add_and_remove [ana.runner] [] [32] [10] ben
      ⟨false, bytes "101"⟩ (by decide) (by decide) (by decide) (by decide) (by decide)
      (by decide) (by decide) (by decide)⟩

/-! ## The record format in decimal notation -/

theorem to_int_is_int (v : Int) : -2 ^ 31 ≤ to_int v ∧ to_int v < 2 ^ 31 := by
  unfold to_int
  norm_num
  omega

theorem addLine_runner_is_int (a : AddLine) : a.runner.is_int :=
  ⟨to_int_is_int _, to_int_is_int _, to_int_is_int _, to_int_is_int _⟩

/-! ## Lines with too few fields -/

theorem vsscanf_blank_space_directive {w : List Nat} (hw : IsBlank w) (fmt : List Nat) :
    vsscanf w (32 :: 37 :: 100 :: fmt) = [] ∧ vsscanf w (32 :: 37 :: 115 :: fmt) = [] := by
  have sp : isspace 32 = true := by decide
  constructor
  · rw [vsscanf_space sp, skip_spaces_blank hw, vsscanf.eq_3, if_pos rfl]
  · rw [vsscanf_space sp, skip_spaces_blank hw, vsscanf.eq_2, if_pos rfl]

theorem vsscanf_blank_literal {w : List Nat} (hw : IsBlank w) {k : Nat}
    (hk : isspace k = false) (h37 : k ≠ 37) (fmt : List Nat) : vsscanf w (k :: fmt) = [] := by
  cases w with
  | nil => rw [vsscanf_other h37]; simp [hk]
  | cons c w =>
    have hc := hw c (by simp)
    have hkc : k ≠ c := by
      intro h
      rw [h, hc] at hk
      cases hk
    exact vsscanf_mismatch hk h37 hkc _ _

theorem addLine_truncated_0 (a : AddLine) :
    a.truncated 0 = 65 :: 68 :: 68 :: a.tail := by
  have h1 : bytes "ADD" = [65, 68, 68] := by decide
  have h2 : bytes " " = [32] := by decide
  have h3 : bytes "." = [46] := by decide
  simp only [AddLine.truncated, AddLine.pieces, List.take, List.foldr, h1, h2, h3,
    List.append_assoc, List.cons_append, List.nil_append, List.append_nil]

theorem addLine_truncated_1 (a : AddLine) :
    a.truncated 1 = 65 :: 68 :: 68 :: (32 :: (a.lane.text ++ a.tail)) := by
  have h1 : bytes "ADD" = [65, 68, 68] := by decide
  have h2 : bytes " " = [32] := by decide
  have h3 : bytes "." = [46] := by decide
  simp only [AddLine.truncated, AddLine.pieces, List.take, List.foldr, h1, h2, h3,
    List.append_assoc, List.cons_append, List.nil_append, List.append_nil]

theorem addLine_truncated_2 (a : AddLine) :
    a.truncated 2 = 65 :: 68 :: 68 :: (32 :: (a.lane.text ++ (32 :: (a.bib.text ++ a.tail)))) := by
  have h1 : bytes "ADD" = [65, 68, 68] := by decide
  have h2 : bytes " " = [32] := by decide
  have h3 : bytes "." = [46] := by decide
  simp only [AddLine.truncated, AddLine.pieces, List.take, List.foldr, h1, h2, h3,
    List.append_assoc, List.cons_append, List.nil_append, List.append_nil]

theorem addLine_truncated_3 (a : AddLine) :
    a.truncated 3 = 65 :: 68 :: 68 :: (32 :: (a.lane.text ++ (32 :: (a.bib.text ++ (32 :: (a.name ++ a.tail)))))) := by
  have h1 : bytes "ADD" = [65, 68, 68] := by decide
  have h2 : bytes " " = [32] := by decide
  have h3 : bytes "." = [46] := by decide
  simp only [AddLine.truncated, AddLine.pieces, List.take, List.foldr, h1, h2, h3,
    List.append_assoc, List.cons_append, List.nil_append, List.append_nil]

theorem addLine_truncated_4 (a : AddLine) :
    a.truncated 4 = 65 :: 68 :: 68 :: (32 :: (a.lane.text ++ (32 :: (a.bib.text ++ (32 :: (a.name ++ (32 :: (a.school ++ a.tail)))))))) := by
  have h1 : bytes "ADD" = [65, 68, 68] := by decide
  have h2 : bytes " " = [32] := by decide
  have h3 : bytes "." = [46] := by decide
  simp only [AddLine.truncated, AddLine.pieces, List.take, List.foldr, h1, h2, h3,
    List.append_assoc, List.cons_append, List.nil_append, List.append_nil]

theorem addLine_truncated_5 (a : AddLine) :
    a.truncated 5 = 65 :: 68 :: 68 :: (32 :: (a.lane.text ++ (32 :: (a.bib.text ++ (32 :: (a.name ++ (32 :: (a.school ++ (32 :: (a.qual_s.text ++ a.tail)))))))))) := by
  have h1 : bytes "ADD" = [65, 68, 68] := by decide
  have h2 : bytes " " = [32] := by decide
  have h3 : bytes "." = [46] := by decide
  simp only [AddLine.truncated, AddLine.pieces, List.take, List.foldr, h1, h2, h3,
    List.append_assoc, List.cons_append, List.nil_append, List.append_nil]

theorem addLine_truncated_6 (a : AddLine) :
    a.truncated 6 = 65 :: 68 :: 68 :: (32 :: (a.lane.text ++ (32 :: (a.bib.text ++ (32 :: (a.name ++ (32 :: (a.school ++ (32 :: (a.qual_s.text ++ (46 :: (a.qual_ms.text ++ a.tail)))))))))))) := by
  have h1 : bytes "ADD" = [65, 68, 68] := by decide
  have h2 : bytes " " = [32] := by decide
  have h3 : bytes "." = [46] := by decide
  simp only [AddLine.truncated, AddLine.pieces, List.take, List.foldr, h1, h2, h3,
    List.append_assoc, List.cons_append, List.nil_append, List.append_nil]

theorem addLine_truncated_7 (a : AddLine) :
    a.truncated 7 = 65 :: 68 :: 68 :: (32 :: (a.lane.text ++ (32 :: (a.bib.text ++ (32 :: (a.name ++ (32 :: (a.school ++ (32 :: (a.qual_s.text ++ (46 :: (a.qual_ms.text ++ (32 :: (a.rec_s.text ++ a.tail)))))))))))))) := by
  have h1 : bytes "ADD" = [65, 68, 68] := by decide
  have h2 : bytes " " = [32] := by decide
  have h3 : bytes "." = [46] := by decide
  simp only [AddLine.truncated, AddLine.pieces, List.take, List.foldr, h1, h2, h3,
    List.append_assoc, List.cons_append, List.nil_append, List.append_nil]

theorem vsscanf_truncated {a : AddLine} (h : a.fields_wf) (hw : IsBlank a.tail) (k : Nat)
    (hk : k < 8) :
    (vsscanf (a.truncated k) (bytes "ADD %d %d %s %s %d.%d %d.%d")).length = k := by
  obtain ⟨h1, h2, h3, h4, h5, h6, h7, h8⟩ := h
  have sp : isspace 32 = true := by decide
  have nd32 : isdigit 32 = false := by decide
  have nd46 : isdigit 46 = false := by decide
  have ndw : NoDigitHead a.tail := noDigitHead_blank hw
  have shw : SpaceHead a.tail := spaceHead_blank hw
  have lit3 : ∀ x fmt : List Nat,
      vsscanf (65 :: 68 :: 68 :: x) (65 :: 68 :: 68 :: fmt) = vsscanf x fmt := by
    intro x fmt
    rw [vsscanf_literal (by decide) (by decide), vsscanf_literal (by decide) (by decide),
      vsscanf_literal (by decide) (by decide)]
  interval_cases k
  · rw [addLine_truncated_0, fmt_add_eq, lit3]
    rw [(vsscanf_blank_space_directive hw _).1]
    rfl
  · rw [addLine_truncated_1, fmt_add_eq, lit3]
    rw [vsscanf_space sp, skip_spaces_cons_of _ sp, skip_spaces_lit h1,
      vsscanf_d h1 ndw]
    rw [(vsscanf_blank_space_directive hw _).1]
    rfl
  · rw [addLine_truncated_2, fmt_add_eq, lit3]
    rw [vsscanf_space sp, skip_spaces_cons_of _ sp, skip_spaces_lit h1,
      vsscanf_d h1 (noDigitHead_cons _ nd32)]
    rw [vsscanf_space sp, skip_spaces_cons_of _ sp, skip_spaces_lit h2,
      vsscanf_d h2 ndw]
    rw [(vsscanf_blank_space_directive hw _).2]
    rfl
  · rw [addLine_truncated_3, fmt_add_eq, lit3]
    rw [vsscanf_space sp, skip_spaces_cons_of _ sp, skip_spaces_lit h1,
      vsscanf_d h1 (noDigitHead_cons _ nd32)]
    rw [vsscanf_space sp, skip_spaces_cons_of _ sp, skip_spaces_lit h2,
      vsscanf_d h2 (noDigitHead_cons _ nd32)]
    rw [vsscanf_space sp, skip_spaces_cons_of _ sp, skip_spaces_token h3,
      vsscanf_s h3 shw]
    rw [(vsscanf_blank_space_directive hw _).2]
    rfl
  · rw [addLine_truncated_4, fmt_add_eq, lit3]
    rw [vsscanf_space sp, skip_spaces_cons_of _ sp, skip_spaces_lit h1,
      vsscanf_d h1 (noDigitHead_cons _ nd32)]
    rw [vsscanf_space sp, skip_spaces_cons_of _ sp, skip_spaces_lit h2,
      vsscanf_d h2 (noDigitHead_cons _ nd32)]
    rw [vsscanf_space sp, skip_spaces_cons_of _ sp, skip_spaces_token h3,
      vsscanf_s h3 (spaceHead_cons _ sp)]
    rw [vsscanf_space sp, skip_spaces_cons_of _ sp, skip_spaces_token h4,
      vsscanf_s h4 shw]
    rw [(vsscanf_blank_space_directive hw _).1]
    rfl
  · rw [addLine_truncated_5, fmt_add_eq, lit3]
    rw [vsscanf_space sp, skip_spaces_cons_of _ sp, skip_spaces_lit h1,
      vsscanf_d h1 (noDigitHead_cons _ nd32)]
    rw [vsscanf_space sp, skip_spaces_cons_of _ sp, skip_spaces_lit h2,
      vsscanf_d h2 (noDigitHead_cons _ nd32)]
    rw [vsscanf_space sp, skip_spaces_cons_of _ sp, skip_spaces_token h3,
      vsscanf_s h3 (spaceHead_cons _ sp)]
    rw [vsscanf_space sp, skip_spaces_cons_of _ sp, skip_spaces_token h4,
      vsscanf_s h4 (spaceHead_cons _ sp)]
    rw [vsscanf_space sp, skip_spaces_cons_of _ sp, skip_spaces_lit h5,
      vsscanf_d h5 ndw]
    rw [vsscanf_blank_literal hw (by decide) (by decide)]
    rfl
  · rw [addLine_truncated_6, fmt_add_eq, lit3]
    rw [vsscanf_space sp, skip_spaces_cons_of _ sp, skip_spaces_lit h1,
      vsscanf_d h1 (noDigitHead_cons _ nd32)]
    rw [vsscanf_space sp, skip_spaces_cons_of _ sp, skip_spaces_lit h2,
      vsscanf_d h2 (noDigitHead_cons _ nd32)]
    rw [vsscanf_space sp, skip_spaces_cons_of _ sp, skip_spaces_token h3,
      vsscanf_s h3 (spaceHead_cons _ sp)]
    rw [vsscanf_space sp, skip_spaces_cons_of _ sp, skip_spaces_token h4,
      vsscanf_s h4 (spaceHead_cons _ sp)]
    rw [vsscanf_space sp, skip_spaces_cons_of _ sp, skip_spaces_lit h5,
      vsscanf_d h5 (noDigitHead_cons _ nd46)]
    rw [vsscanf_literal (by decide) (by decide), vsscanf_d h6 ndw]
    rw [(vsscanf_blank_space_directive hw _).1]
    rfl
  · rw [addLine_truncated_7, fmt_add_eq, lit3]
    rw [vsscanf_space sp, skip_spaces_cons_of _ sp, skip_spaces_lit h1,
      vsscanf_d h1 (noDigitHead_cons _ nd32)]
    rw [vsscanf_space sp, skip_spaces_cons_of _ sp, skip_spaces_lit h2,
      vsscanf_d h2 (noDigitHead_cons _ nd32)]
    rw [vsscanf_space sp, skip_spaces_cons_of _ sp, skip_spaces_token h3,
      vsscanf_s h3 (spaceHead_cons _ sp)]
    rw [vsscanf_space sp, skip_spaces_cons_of _ sp, skip_spaces_token h4,
      vsscanf_s h4 (spaceHead_cons _ sp)]
    rw [vsscanf_space sp, skip_spaces_cons_of _ sp, skip_spaces_lit h5,
      vsscanf_d h5 (noDigitHead_cons _ nd46)]
    rw [vsscanf_literal (by decide) (by decide), vsscanf_d h6 (noDigitHead_cons _ nd32)]
    rw [vsscanf_space sp, skip_spaces_cons_of _ sp, skip_spaces_lit h7,
      vsscanf_d h7 ndw]
    rw [vsscanf_blank_literal hw (by decide) (by decide)]
    rfl

theorem mem_foldr_append {c : Nat} (ps : List (List Nat)) :
    c ∈ ps.foldr (fun p rest => p ++ rest) [] ↔ ∃ p ∈ ps, c ∈ p := by
  induction ps with
  | nil => simp
  | cons p ps ih =>
    simp only [List.foldr_cons, List.mem_append, ih, List.mem_cons, exists_eq_or_imp]

theorem addLine_text_eq_truncated (a : AddLine) : a.text = a.truncated 8 := by
  have h1 : bytes "ADD" = [65, 68, 68] := by decide
  have h2 : bytes " " = [32] := by decide
  have h3 : bytes "." = [46] := by decide
  rw [addLine_text_eq]
  simp only [AddLine.truncated, AddLine.pieces, List.take, List.foldr, h1, h2, h3,
    List.append_assoc, List.cons_append, List.nil_append, List.append_nil]

theorem addLine_truncated_ne_zero {a : AddLine} (h : a.fields_wf) (hw : IsBlank a.tail)
    (k : Nat) : ∀ c ∈ a.truncated k, c ≠ 0 := by
  intro c hc
  apply addLine_fields_ne_zero h (isBlank_ne_zero hw) c
  rw [addLine_text_eq_truncated]
  unfold AddLine.truncated at hc ⊢
  simp only [List.mem_append, mem_foldr_append] at hc ⊢
  rcases hc with (hc | ⟨p, hp, hcp⟩) | hc
  · exact Or.inl (Or.inl hc)
  · exact Or.inl (Or.inr ⟨p, List.mem_of_mem_take hp, hcp⟩)
  · exact Or.inr hc

theorem scan_keyword_truncated (cmd : List Nat) {a : AddLine} (hw : IsBlank a.tail) (k : Nat) :
    scan_keyword (a.truncated k) cmd = some (bytes "ADD") := by
  have hb : bytes "ADD" = [65, 68, 68] := by decide
  have h2 : bytes " " = [32] := by decide
  have ht : IsToken [65, 68, 68] := by decide
  have hk : overruns 16 [Arg.str [65, 68, 68]] = false := by decide
  have hx : ∃ x, SpaceHead x ∧ a.truncated k = [65, 68, 68] ++ x := by
    refine ⟨(a.pieces.take k).foldr (fun p rest => p ++ rest) [] ++ a.tail, ?_, ?_⟩
    · cases k with
      | zero =>
        simp only [List.take, List.foldr, List.nil_append]
        exact spaceHead_blank hw
      | succ k =>
        intro c hc
        simp only [AddLine.pieces, h2, List.take, List.foldr, List.append_assoc,
          List.cons_append, List.nil_append, List.head?_cons, Option.some.injEq] at hc
        rw [← hc]
        decide
    · simp only [AddLine.truncated, hb, List.append_assoc]
  obtain ⟨x, hx, he⟩ := hx
  have h := vsscanf_s ht hx []
  rw [vsscanf.eq_1] at h
  unfold scan_keyword
  rw [he, fmt_s_eq]
  simp only [h, hk, Bool.false_eq_true, if_false, hb]

theorem dispatch_add_short (l : List runner) (kernel_buffer : List Nat)
    (hlen : kernel_buffer.length < 100)
    (h : (vsscanf kernel_buffer (bytes "ADD %d %d %s %s %d.%d %d.%d")).length ≠ 8) :
    dispatch l kernel_buffer (bytes "ADD") = some (l, []) := by
  have ho := overruns_vsscanf LEN_NAME kernel_buffer (bytes "ADD %d %d %s %s %d.%d %d.%d") hlen
  unfold dispatch
  simp only [if_true, ho, Bool.false_eq_true, if_false]
  split
  · rename_i heq
    rw [heq] at h
    exact absurd rfl h
  · rfl

theorem dispatch_remove_short (l : List runner) (kernel_buffer : List Nat)
    (h : (vsscanf kernel_buffer (bytes "REMOVE %d")).length ≠ 1) :
    dispatch l kernel_buffer (bytes "REMOVE") = some (l, []) := by
  unfold dispatch
  simp only [keyword_add_ne.2.2.2, if_false, if_true]
  split
  · rename_i heq
    rw [heq] at h
    exact absurd rfl h
  · rfl

theorem runners_write_dropped (l : List runner) (cmd buf k : List Nat)
    (h0 : ∀ c ∈ buf, c ≠ 0) (hlen : buf.length < 100)
    (hk : scan_keyword buf cmd = some k) (hd : dispatch l buf k = some (l, [])) :
    runners_write l cmd buf buf.length
      = some ⟨buf.length, l, [Event.mutex_lock, Event.mutex_unlock]⟩ := by
  rw [runners_write_ok l cmd buf h0 hlen, hk]
  simp only [hd]
  rfl

theorem runners_write_truncated (l : List runner) (cmd : List Nat) {a : AddLine}
    (h : a.fields_wf) (hw : IsBlank a.tail) (k : Nat) (hk : k < 8)
    (hlen : (a.truncated k).length < 100) :
    runners_write l cmd (a.truncated k) (a.truncated k).length
      = some ⟨(a.truncated k).length, l, [Event.mutex_lock, Event.mutex_unlock]⟩ := by
  apply runners_write_dropped l cmd _ _ (addLine_truncated_ne_zero h hw k) hlen
    (scan_keyword_truncated cmd hw k)
  apply dispatch_add_short l _ hlen
  rw [vsscanf_truncated h hw k hk]
  omega

theorem runners_write_remove_bare (l : List runner) (cmd : List Nat) {w : List Nat}
    (hw : IsBlank w) (hlen : (remove_bare w).length < 100) :
    runners_write l cmd (remove_bare w) (remove_bare w).length
      = some ⟨(remove_bare w).length, l, [Event.mutex_lock, Event.mutex_unlock]⟩ := by
  have hb : bytes "REMOVE" = [82, 69, 77, 79, 86, 69] := by decide
  have ht : IsToken [82, 69, 77, 79, 86, 69] := by decide
  have hk : overruns 16 [Arg.str [82, 69, 77, 79, 86, 69]] = false := by decide
  have he : remove_bare w = 82 :: 69 :: 77 :: 79 :: 86 :: 69 :: w := by
    simp only [remove_bare, hb, List.cons_append, List.nil_append]
  have h0 : ∀ c ∈ remove_bare w, c ≠ 0 := by
    intro c hc
    rw [he] at hc
    simp only [List.mem_cons] at hc
    rcases hc with hc | hc | hc | hc | hc | hc | hc
    any_goals omega
    exact isBlank_ne_zero hw c hc
  have hs : scan_keyword (remove_bare w) cmd = some (bytes "REMOVE") := by
    have h := vsscanf_s ht (spaceHead_blank hw) []
    rw [vsscanf.eq_1] at h
    have h2 : vsscanf (remove_bare w) (bytes "%s") = [Arg.str [82, 69, 77, 79, 86, 69]] := by
      rw [he, fmt_s_eq]; exact h
    unfold scan_keyword
    simp only [h2, hk, Bool.false_eq_true, if_false, hb]
  have hv : vsscanf (remove_bare w) (bytes "REMOVE %d") = [] := by
    rw [he, fmt_remove_eq]
    rw [vsscanf_literal (by decide) (by decide), vsscanf_literal (by decide) (by decide),
      vsscanf_literal (by decide) (by decide), vsscanf_literal (by decide) (by decide),
      vsscanf_literal (by decide) (by decide), vsscanf_literal (by decide) (by decide)]
    exact (vsscanf_blank_space_directive hw _).1
  apply runners_write_dropped l cmd _ _ h0 hlen hs
  apply dispatch_remove_short
  rw [hv]
  decide

theorem executed_only_with_fields (l : List runner) (cmd buf : List Nat) (len : Nat)
    (r : Result) (hr : runners_write l cmd buf len = some r)
    (hx : r.list_of_runners ≠ l ∨ r.log ≠ []) :
    ∃ k, scan_keyword (cstr (buf.take len)) cmd = some k
      ∧ ((k = bytes "ADD"
            ∧ (vsscanf (cstr (buf.take len)) (bytes "ADD %d %d %s %s %d.%d %d.%d")).length = 8)
          ∨ (k = bytes "REMOVE"
            ∧ (vsscanf (cstr (buf.take len)) (bytes "REMOVE %d")).length = 1)
          ∨ k = bytes "PRINT") := by
  have hquiet : ∀ v : Int, ¬ ((Result.mk v l []).list_of_runners ≠ l
      ∨ (Result.mk v l []).log ≠ []) := by
    intro v h
    rcases h with h | h
    · exact h rfl
    · exact h rfl
  have hdrop : ∀ v : Int, ¬ ((Result.mk v l
      ([Event.mutex_lock] ++ [] ++ [Event.mutex_unlock])).list_of_runners ≠ l
      ∨ (Result.mk v l ([Event.mutex_lock] ++ [] ++ [Event.mutex_unlock])).log ≠ []) := by
    intro v h
    rcases h with h | h
    · exact h rfl
    · exact h rfl
  by_cases h100 : 100 ≤ len
  · have h : runners_write l cmd buf len = some ⟨-EINVAL, l, []⟩ := by
      unfold runners_write; rw [if_pos h100]
    rw [h] at hr
    cases hr
    exact absurd hx (hquiet _)
  · by_cases hc : buf.length < len
    · have h : runners_write l cmd buf len = some ⟨-EFAULT, l, []⟩ := by
        unfold runners_write; rw [if_neg h100, if_pos hc]
      rw [h] at hr
      cases hr
      exact absurd hx (hquiet _)
    · have hlen : len < 100 := by omega
      have hcopy : len ≤ buf.length := by omega
      have hkb : (cstr (buf.take len)).length < 100 := by
        have h1 := cstr_length (buf.take len)
        have h2 : (buf.take len).length ≤ len := by simp
        omega
      cases hk : scan_keyword (cstr (buf.take len)) cmd with
      | none =>
        rw [runners_write_overrun l cmd buf len hlen hcopy hk] at hr
        cases hr
      | some k =>
        obtain ⟨l2, ev, hd, hw⟩ := runners_write_defined l cmd buf len hlen hcopy k hk
        rw [hw] at hr
        cases hr
        refine ⟨k, rfl, ?_⟩
        by_cases hA : k = bytes "ADD"
        · by_cases h8 : (vsscanf (cstr (buf.take len))
              (bytes "ADD %d %d %s %s %d.%d %d.%d")).length = 8
          · exact Or.inl ⟨hA, h8⟩
          · rw [hA, dispatch_add_short l _ hkb h8] at hd
            cases hd
            exact absurd hx (hdrop _)
        · by_cases hR : k = bytes "REMOVE"
          · by_cases h1 : (vsscanf (cstr (buf.take len)) (bytes "REMOVE %d")).length = 1
            · exact Or.inr (Or.inl ⟨hR, h1⟩)
            · rw [hR, dispatch_remove_short l _ h1] at hd
              cases hd
              exact absurd hx (hdrop _)
          · by_cases hP : k = bytes "PRINT"
            · exact Or.inr (Or.inr hP)
            · rw [dispatch_unknown l _ k hA hR hP] at hd
              cases hd
              exact absurd hx (hdrop _)

/-! ## The claims on the record format and on the field list -/

/-- C12 as amended.  A recognized command is executed only when its line begins
with the field list of the grammar: `ADD` with its 8 fields after the keyword,
`REMOVE` with its 1 field, `PRINT` with none.

* Too few fields: an `ADD` line cut after fewer than 8 of its fields, and a
  `REMOVE` line without its field, leave the roster unchanged and log nothing.
* The whole field list: whatever follows the last field after a white-space
  byte, such as additional tokens, is ignored, and the command is executed as
  without it: `ADD` appends the runner and logs it, `REMOVE` runs the removal
  loop for the written bib, `PRINT` lists the roster.
* Only then: a call that changes the roster or logs a record has scanned the
  keyword `ADD` and stored 8 values, or the keyword `REMOVE` and stored 1 value,
  or the keyword `PRINT`. -/
theorem field_list_decides_execution :
    (∀ (l : List runner) (cmd : List Nat) (a : AddLine) (k : Nat),
        a.fields_wf → IsBlank a.tail → k < 8 → (a.truncated k).length < 100 →
        runners_write l cmd (a.truncated k) (a.truncated k).length
          = some ⟨(a.truncated k).length, l, [Event.mutex_lock, Event.mutex_unlock]⟩)
      ∧ (∀ (l : List runner) (cmd w : List Nat),
          IsBlank w → (remove_bare w).length < 100 →
          runners_write l cmd (remove_bare w) (remove_bare w).length
            = some ⟨(remove_bare w).length, l, [Event.mutex_lock, Event.mutex_unlock]⟩)
      ∧ (∀ (l : List runner) (cmd : List Nat) (a : AddLine),
          a.fields_wf → IsTrailing a.tail → a.text.length < 100 →
          runners_write l cmd a.text a.text.length
            = some ⟨a.text.length, l ++ [a.runner],
                [Event.mutex_lock, Event.printk (added_record a.runner),
                  Event.mutex_unlock]⟩)
      ∧ (∀ (l : List runner) (cmd : List Nat) (t : IntLit) (w : List Nat),
          t.wf → IsTrailing w → (remove_line t w).length < 100 →
          runners_write l cmd (remove_line t w) (remove_line t w).length
            = some ⟨(remove_line t w).length, (remove_loop (to_int t.val) l).1,
                [Event.mutex_lock] ++ (remove_loop (to_int t.val) l).2
                  ++ [Event.mutex_unlock]⟩)
      ∧ (∀ (l : List runner) (cmd w : List Nat),
          IsTrailing w → (print_line w).length < 100 →
          runners_write l cmd (print_line w) (print_line w).length
            = some ⟨(print_line w).length, l, print_trace l⟩)
      ∧ (∀ (l : List runner) (cmd buf : List Nat) (len : Nat) (r : Result),
          runners_write l cmd buf len = some r →
          (r.list_of_runners ≠ l ∨ r.log ≠ []) →
          ∃ k, scan_keyword (cstr (buf.take len)) cmd = some k
            ∧ ((k = bytes "ADD"
                  ∧ (vsscanf (cstr (buf.take len))
                      (bytes "ADD %d %d %s %s %d.%d %d.%d")).length = 8)
                ∨ (k = bytes "REMOVE"
                  ∧ (vsscanf (cstr (buf.take len)) (bytes "REMOVE %d")).length = 1)
                ∨ k = bytes "PRINT")) :=
  ⟨fun l cmd _ k ha hw hk hlen => runners_write_truncated l cmd ha hw k hk hlen,
    fun l cmd _ hw hlen => runners_write_remove_bare l cmd hw hlen,
    fun l cmd _ ha hat hlen => runners_write_add_trailing l cmd ha hat hlen,
    fun l cmd _ _ ht hw hlen => runners_write_remove_trailing l cmd ht hw hlen,
    fun l cmd _ hw hlen => runners_write_print_trailing l cmd hw hlen,
    fun l cmd buf len r hr hx => executed_only_with_fields l cmd buf len r hr hx⟩

/-- Witness of the amended C12, on the roster of `cy`: the line of `ana` cut
after six values, `ADD 3 101 Ana Lincoln 12.34`, and a bare `REMOVE` are
dropped; the line of `ben` followed by ` extra` is executed; and the executed
line has stored 8 values. -/
theorem field_list_decides_execution_witness :
    ana.truncated 6 = bytes "ADD 3 101 Ana Lincoln 12.34"
      ∧ runners_write [cy.runner] [] (ana.truncated 6) (ana.truncated 6).length
        = some ⟨(ana.truncated 6).length, [cy.runner],
            [Event.mutex_lock, Event.mutex_unlock]⟩
      ∧ runners_write [cy.runner] [] (remove_bare [10]) (remove_bare [10]).length
        = some ⟨(remove_bare [10]).length, [cy.runner],
            [Event.mutex_lock, Event.mutex_unlock]⟩
      ∧ AddLine.text { ben with tail := bytes " extra" }
        = bytes "ADD 5 101 Ben Mercer 13.07 12.80 extra"
      ∧ runners_write [cy.runner] [] (AddLine.text { ben with tail := bytes " extra" })
            (AddLine.text { ben with tail := bytes " extra" }).length
        = some ⟨(AddLine.text { ben with tail := bytes " extra" }).length,
            [cy.runner] ++ [AddLine.runner { ben with tail := bytes " extra" }],
            [Event.mutex_lock,
              Event.printk (added_record (AddLine.runner { ben with tail := bytes " extra" })),
              Event.mutex_unlock]⟩
      ∧ ∃ k, scan_keyword (cstr ((bytes "ADD 5 101 Ben Mercer 13.07 12.80 extra").take 38)) []
            = some k
          ∧ ((k = bytes "ADD"
                ∧ (vsscanf (cstr ((bytes "ADD 5 101 Ben Mercer 13.07 12.80 extra").take 38))
                    (bytes "ADD %d %d %s %s %d.%d %d.%d")).length = 8)
              ∨ (k = bytes "REMOVE"
                ∧ (vsscanf (cstr ((bytes "ADD 5 101 Ben Mercer 13.07 12.80 extra").take 38))
                    (bytes "REMOVE %d")).length = 1)
              ∨ k = bytes "PRINT") :=
  ⟨by decide,
    field_list_decides_execution.1 [cy.runner] [] ana 6 (by decide) (by decide) (by decide)
      (by decide),
    field_list_decides_execution.2.1 [cy.runner] [] [10] (by decide) (by decide),
    by decide,
    field_list_decides_execution.2.2.1 [cy.runner] [] { ben with tail := bytes " extra" }
      (by decide) ⟨spaceHead_cons _ (by decide), by decide⟩ (by decide),
    field_list_decides_execution.2.2.2.2.2 [cy.runner] []
      (bytes "ADD 5 101 Ben Mercer 13.07 12.80 extra") 38
      ⟨38, [cy.runner] ++ [AddLine.runner { ben with tail := bytes " extra" }],
        [Event.mutex_lock,
          Event.printk (added_record (AddLine.runner { ben with tail := bytes " extra" })),
          Event.mutex_unlock]⟩
      (by decide) (Or.inl (by decide))⟩

end Runners
